import Mathlib

/-!
# Verification of the bindlang binding engine core

A shallow embedding of `src/bindlang/core` (models.py, state.py, checkers.py,
engine.py, composition.py, audit_manager.py) together with proofs about the
behaviour of registration, the guard checker pipeline, the binding core, the
cascade scheduler and the combinator algebra.

Modelling conventions:
* Python `Any` values stored in state maps / payloads are modelled by the
  inductive type `Val` (`None`, bool, int, str, list, dict).  Python's numeric
  cross-type equality (`True == 1`) is modelled by `pyEq`; dict values compare
  field-by-field in order (no claim compares composite values).
* Python `dict`s are insertion-ordered association lists with unique keys:
  updates of an existing key keep its position, new keys append.
* `datetime` values are modelled by `Int` timestamps; `datetime.fromisoformat`
  is an abstract parameter `iso : String → Option Int` (`none` models a raised
  `ValueError`).  All theorems are universally quantified over `iso`.
* Wall-clock fields (`attempt_timestamp`, `bound_at`, transition timestamps)
  are omitted: nothing in the verified behaviour depends on them.
* `float(payload.get("weight", 1.0))` is abstracted to the raw payload value
  with default `1`; no verified property concerns weight arithmetic.
* A raised Python exception is modelled by `Except.error` carrying the
  exception's description.
-/

namespace Bindlang

mutual

/-- Python runtime values stored in `Dict[str, Any]` fields. -/
inductive Val where
  | vNone : Val
  | vBool (b : Bool) : Val
  | vInt (n : Int) : Val
  | vStr (s : String) : Val
  | vList (l : ValList) : Val
  | vDict (d : ValPairs) : Val
deriving DecidableEq, Repr

/-- A Python list of values. -/
inductive ValList where
  | nil : ValList
  | cons (v : Val) (rest : ValList) : ValList
deriving DecidableEq, Repr

/-- The entries of a Python dict value, in insertion order. -/
inductive ValPairs where
  | nil : ValPairs
  | cons (k : String) (v : Val) (rest : ValPairs) : ValPairs
deriving DecidableEq, Repr

end

/-- `d.items()` of a dict value as an association list. -/
def ValPairs.toList : ValPairs → List (String × Val)
  | .nil => []
  | .cons k v rest => (k, v) :: rest.toList

/-- Build a Python list value from a list of strings. -/
def ValList.ofStrings : List String → ValList
  | [] => .nil
  | s :: rest => .cons (.vStr s) (ValList.ofStrings rest)

/-- Python truthiness (`bool(x)`): `None`, `False`, `0`, `""`, `[]`, `{}` are falsy. -/
def Val.truthy : Val → Bool
  | .vNone => false
  | .vBool b => b
  | .vInt n => n != 0
  | .vStr s => s != ""
  | .vList .nil => false
  | .vList (.cons _ _) => true
  | .vDict .nil => false
  | .vDict (.cons _ _ _) => true

mutual

/-- Python `==` on values: `True == 1`, `False == 0`; other kinds compare
structurally (composite values elementwise, dicts in field order). -/
def pyEq : Val → Val → Bool
  | .vNone, .vNone => true
  | .vBool a, .vBool b => a == b
  | .vBool a, .vInt n => (if a then (1 : Int) else 0) == n
  | .vInt n, .vBool a => n == (if a then (1 : Int) else 0)
  | .vInt m, .vInt n => m == n
  | .vStr s, .vStr t => s == t
  | .vList a, .vList b => pyEqList a b
  | .vDict a, .vDict b => pyEqPairs a b
  | _, _ => false

def pyEqList : ValList → ValList → Bool
  | .nil, .nil => true
  | .cons a as', .cons b bs' => pyEq a b && pyEqList as' bs'
  | _, _ => false

def pyEqPairs : ValPairs → ValPairs → Bool
  | .nil, .nil => true
  | .cons k1 v1 as', .cons k2 v2 bs' => k1 == k2 && pyEq v1 v2 && pyEqPairs as' bs'
  | _, _ => false

end

/-- Insertion-ordered dictionary (`dict`) as an association list. -/
abbrev Dict (α : Type) := List (String × α)

/-- `d[k]` / `d.get(k)` returning `Option`. -/
def dictGet? {α : Type} (d : Dict α) (k : String) : Option α :=
  (d.find? (fun p => p.1 == k)).map (·.2)

/-- `d[k] = v`: replace in place when the key exists, else append (Python
dict insertion-order semantics). -/
def dictInsert {α : Type} : Dict α → String → α → Dict α
  | [], k, v => [(k, v)]
  | (k2, v2) :: rest, k, v =>
      if k2 == k then (k, v) :: rest else (k2, v2) :: dictInsert rest k v

/-- Keys of a dict in insertion order. -/
def dictKeys {α : Type} (d : Dict α) : List String := d.map (·.1)

/-- Decidable equality of `Except` results, for evaluating concrete runs. -/
instance {ε α : Type} [DecidableEq ε] [DecidableEq α] : DecidableEq (Except ε α) := fun a b =>
  match a, b with
  | .ok x, .ok y =>
      if h : x = y then isTrue (by rw [h]) else isFalse (by intro hc; cases hc; exact h rfl)
  | .error e, .error f =>
      if h : e = f then isTrue (by rw [h]) else isFalse (by intro hc; cases hc; exact h rfl)
  | .ok _, .error _ => isFalse (by intro hc; cases hc)
  | .error _, .ok _ => isFalse (by intro hc; cases hc)

/-- Python truthiness of an optional string field (`None` and `""` are falsy). -/
def optStrTruthy : Option String → Bool
  | none => false
  | some s => s != ""

/-! ## models.py: temporal mini-language -/

/-- Result of `TemporalExpression.parse`: either a `DateTimeTemporal`
(operator, parsed reference datetime) or a `StateTemporal` (state key). -/
inductive Evaluable where
  | dateTimeTemporal (operator : String) (reference : Int) : Evaluable
  | stateTemporal (state_key : String) : Evaluable
deriving DecidableEq, Repr

/-- Immutable runtime context (`Context`): actor, timestamp, location, state map. -/
structure Context where
  who : Option String
  when : Int
  whereAt : String
  state : Dict Val
deriving DecidableEq, Repr

/-- `Context.with_state_update`: functional update returning a new context. -/
def Context.with_state_update (c : Context) (key : String) (value : Val) : Context :=
  { c with state := dictInsert c.state key value }

/-- `DateTimeTemporal.evaluate` / `StateTemporal.evaluate`. -/
def Evaluable.evaluate : Evaluable → Context → Bool
  | .dateTimeTemporal op ref, ctx =>
      if op == "after" then decide (ctx.when > ref)
      else if op == "before" then decide (ctx.when < ref)
      else false
  | .stateTemporal key, ctx =>
      (((dictGet? ctx.state key).getD .vNone)).truthy

/-- `":" in expr`. -/
def containsColon (s : String) : Bool := s.data.any (· == ':')

/-- `expr.split(":", 1)` on the character list: text before the first colon
and everything after it. -/
def splitOnceColonAux : List Char → List Char × List Char
  | [] => ([], [])
  | c :: rest =>
      if c == ':' then ([], rest)
      else
        let (pre, post) := splitOnceColonAux rest
        (c :: pre, post)

/-- `expr.split(":", 1)` producing (operator, reference). -/
def splitOnceColon (s : String) : String × String :=
  let (pre, post) := splitOnceColonAux s.data
  (String.mk pre, String.mk post)

/-- `reference and reference[0].isdigit()`. -/
def refStartsDigit (r : String) : Bool :=
  match r.data with
  | [] => false
  | c :: _ => c.isDigit

/-- `TemporalExpression.parse`, with ISO-datetime parsing abstracted by `iso`
(`none` models a `ValueError` from `datetime.fromisoformat`). -/
def TemporalExpression.parse (iso : String → Option Int) (expr : String) :
    Except String Evaluable :=
  if !containsColon expr then
    .error "Invalid temporal expression (missing colon)"
  else
    let (operator, reference) := splitOnceColon expr
    if operator != "after" && operator != "before" then
      .error "Invalid operator"
    else if refStartsDigit reference then
      match iso reference with
      | some dt => .ok (.dateTimeTemporal operator dt)
      | none => .error "Invalid ISO datetime"
    else
      .ok (.stateTemporal reference)

/-! ## models.py: gates, symbols, audit records -/

/-- `GateCondition` (the `where` field is named `whereAt`; `where` is reserved). -/
structure GateCondition where
  who : Option (List String)
  when : Option String
  whereAt : Option (List String)
  state : Option (Dict Val)
deriving DecidableEq, Repr

/-- `LatentSymbol`. -/
structure LatentSymbol where
  id : String
  symbol_type : String
  gate : GateCondition
  payload : Dict Val
  metadata : Dict Val
  depends_on : List String
  consumption : String
deriving DecidableEq, Repr

/-- A recorded state change `{"key": k, "old": o, "new": n}`; a missing old
value is `vNone` (Python records `None`). -/
structure StateChange where
  key : String
  old : Val
  new : Val
deriving DecidableEq, Repr

/-- `BoundSymbol`. -/
structure BoundSymbol where
  symbol_id : String
  symbol_type : String
  effect : Dict Val
  weight : Val
  context_snapshot : Context
  state_changes_applied : Option (List StateChange)
deriving DecidableEq, Repr

/-- `FailureReason`. -/
structure FailureReason where
  condition_type : String
  expected : Val
  actual : Val
  message : String
deriving DecidableEq, Repr

/-- `BindingAttempt`. -/
structure BindingAttempt where
  symbol_id : String
  context_snapshot : Context
  success : Bool
  bound_symbol_id : Option String
  failure_reasons : List FailureReason
  state_changes_applied : Option (List StateChange)
deriving DecidableEq, Repr

/-! ## state.py: lifecycle state machine -/

/-- `SymbolState`. -/
inductive SymbolState where
  | created
  | dormant
  | activated
  | archived
  | expired
deriving DecidableEq, Repr

/-- `SymbolStateMachine.TRANSITIONS` (missing key defaults to the empty set). -/
def SymbolStateMachine.transitionsOf : SymbolState → List SymbolState
  | .created => [.dormant]
  | .dormant => [.activated, .expired]
  | .activated => [.archived, .dormant]
  | _ => []

/-- `SymbolStateMachine.validate`. -/
def SymbolStateMachine.validate (from_st to_st : SymbolState) : Bool :=
  (SymbolStateMachine.transitionsOf from_st).contains to_st

/-- `StateTransition` record (timestamp omitted, see header). -/
structure StateTransition where
  symbol_id : String
  from_state : SymbolState
  to_state : SymbolState
  reason : String
deriving DecidableEq, Repr

/-- Constructing a `StateTransition`: the pydantic `validate_transition`
model-validator raises `ValueError` for a pair outside the legal table. -/
def mkStateTransition (symbol_id : String) (from_state to_state : SymbolState)
    (reason : String) : Except String StateTransition :=
  if SymbolStateMachine.validate from_state to_state then
    .ok ⟨symbol_id, from_state, to_state, reason⟩
  else
    .error "Invalid transition"

/-! ## checkers.py: the six gate checkers -/

/-- Python truthiness of an optional set/list field. -/
def optListTruthy {α : Type} : Option (List α) → Bool
  | none => false
  | some l => !l.isEmpty

/-- Python truthiness of an optional dict field. -/
def optDictTruthy {α : Type} : Option (Dict α) → Bool
  | none => false
  | some d => !d.isEmpty

/-- `sorted` on strings (insertion sort). -/
def insertSorted (s : String) : List String → List String
  | [] => [s]
  | t :: rest => if s ≤ t then s :: t :: rest else t :: insertSorted s rest

/-- `sorted(xs)` for a set of strings. -/
def sortStrings : List String → List String
  | [] => []
  | s :: rest => insertSorted s (sortStrings rest)

/-- An optional actor as a Python value (`None` or the string). -/
def optStrVal : Option String → Val
  | none => .vNone
  | some s => .vStr s

namespace WhoChecker

/-- `WhoChecker.matches` (an absent or empty actor set passes). -/
def matches' (symbol : LatentSymbol) (context : Context) : Bool :=
  match symbol.gate.who with
  | none => true
  | some who =>
      if who.isEmpty then true
      else match context.who with
        | none => false
        | some a => who.contains a

/-- `WhoChecker.check`. -/
def check (symbol : LatentSymbol) (context : Context) : Option FailureReason :=
  if matches' symbol context then none
  else
    some ⟨"who", .vList (ValList.ofStrings (sortStrings ((symbol.gate.who).getD []))),
          optStrVal context.who, "who: actor not in gate set"⟩

end WhoChecker

namespace WhenChecker

/-- `WhenChecker.matches`: parse-or-evaluation errors yield `False`. -/
def matches' (iso : String → Option Int) (symbol : LatentSymbol) (context : Context) : Bool :=
  match symbol.gate.when with
  | none => true
  | some w =>
      if w == "" then true
      else match TemporalExpression.parse iso w with
        | .error _ => false
        | .ok expr => expr.evaluate context

/-- `WhenChecker.check`: errors are folded into a `when` failure reason. -/
def check (iso : String → Option Int) (symbol : LatentSymbol) (context : Context) :
    Option FailureReason :=
  match symbol.gate.when with
  | none => none
  | some w =>
      if w == "" then none
      else match TemporalExpression.parse iso w with
        | .error _ =>
            some ⟨"when", .vStr w, .vStr (toString context.when),
                  "when: temporal expression evaluation error"⟩
        | .ok expr =>
            if expr.evaluate context then none
            else
              some ⟨"when", .vStr w, .vStr (toString context.when),
                    "when: temporal condition not satisfied"⟩

end WhenChecker

namespace WhereChecker

/-- `WhereChecker.matches` (an absent or empty location set passes). -/
def matches' (symbol : LatentSymbol) (context : Context) : Bool :=
  match symbol.gate.whereAt with
  | none => true
  | some ws =>
      if ws.isEmpty then true
      else ws.contains context.whereAt

/-- `WhereChecker.check`. -/
def check (symbol : LatentSymbol) (context : Context) : Option FailureReason :=
  if matches' symbol context then none
  else
    some ⟨"where", .vList (ValList.ofStrings (sortStrings ((symbol.gate.whereAt).getD []))),
          .vStr context.whereAt, "where: location not in gate set"⟩

end WhereChecker

namespace StateChecker

/-- `StateChecker.matches`: every gate key must equal the context state value
under Python equality (a missing key reads as `None`). -/
def matches' (symbol : LatentSymbol) (context : Context) : Bool :=
  match symbol.gate.state with
  | none => true
  | some gs =>
      if gs.isEmpty then true
      else gs.all (fun p => pyEq ((dictGet? context.state p.1).getD .vNone) p.2)

/-- `StateChecker.check`: reports the first gate key whose value mismatches. -/
def check (symbol : LatentSymbol) (context : Context) : Option FailureReason :=
  match symbol.gate.state with
  | none => none
  | some gs =>
      if gs.isEmpty then none
      else
        match gs.find? (fun p => !pyEq ((dictGet? context.state p.1).getD .vNone) p.2) with
        | none => none
        | some (k, expected) =>
            some ⟨"state", .vDict (.cons k expected .nil),
                  .vDict (.cons k ((dictGet? context.state k).getD .vNone) .nil),
                  "state: value mismatch"⟩

end StateChecker

namespace DependencyChecker

/-- `DependencyChecker.matches`: all declared dependencies are activated. -/
def matches' (activated_symbols : List String) (symbol : LatentSymbol) : Bool :=
  symbol.depends_on.all (fun dep => activated_symbols.contains dep)

/-- `DependencyChecker.check`: reports the first unmet dependency in
declaration order. -/
def check (activated_symbols : List String) (symbol : LatentSymbol) : Option FailureReason :=
  if symbol.depends_on.isEmpty then none
  else
    match symbol.depends_on.find? (fun dep => !activated_symbols.contains dep) with
    | none => none
    | some dep =>
        some ⟨"dependency", .vStr dep, .vStr "not activated",
              "dependency not yet activated"⟩

end DependencyChecker

namespace ExpirationChecker

/-- `ExpirationChecker.matches`: only a hard `before:<ISO-date>` deadline that
has passed fails; parse errors and symbolic references pass. -/
def matches' (iso : String → Option Int) (symbol : LatentSymbol) (context : Context) : Bool :=
  match symbol.gate.when with
  | none => true
  | some w =>
      if w == "" then true
      else if !w.startsWith "before:" then true
      else match TemporalExpression.parse iso w with
        | .error _ => true
        | .ok expr =>
            match expr with
            | .dateTimeTemporal _ _ => expr.evaluate context
            | .stateTemporal _ => true

/-- `ExpirationChecker.check`: an `expired` diagnostic only for a passed hard
ISO deadline (never for a symbolic state reference). -/
def check (iso : String → Option Int) (symbol : LatentSymbol) (context : Context) :
    Option FailureReason :=
  match symbol.gate.when with
  | none => none
  | some w =>
      if w == "" then none
      else if !w.startsWith "before:" then none
      else match TemporalExpression.parse iso w with
        | .error _ => none
        | .ok expr =>
            match expr with
            | .dateTimeTemporal op ref =>
                if (Evaluable.dateTimeTemporal op ref).evaluate context then none
                else
                  some ⟨"expired", .vStr ("before " ++ toString ref),
                        .vStr (toString context.when), "symbol expired: deadline has passed"⟩
            | .stateTemporal _ => none

end ExpirationChecker

/-! ## engine.py: engine state, registration, cycle validation -/

/-- The visible mutable state of a `BindingEngine` (the audit manager's trail
is flattened into the engine state; no streaming sink is attached, so
`streaming.record_attempt` reduces to appending to the audit trail). -/
structure EngineState where
  ledger : List StateTransition
  symbol_registry : Dict LatentSymbol
  activated_symbols : List String
  dependency_graph : Dict (List String)
  audit_trail : List BindingAttempt
deriving DecidableEq, Repr

/-- A freshly constructed engine. -/
def EngineState.init : EngineState := ⟨[], [], [], [], []⟩

/-- `set.add`: activated-symbol sets are lists without duplicates. -/
def setAdd (l : List String) (x : String) : List String :=
  if l.contains x then l else l ++ [x]

/-- `self.dependency_graph.get(node, [])`. -/
def graphGet (g : Dict (List String)) (node : String) : List String :=
  (dictGet? g node).getD []

/-- `path.index(n)` slice: `path[path.index(n):] + [n]`, the reported cycle. -/
def cycleFrom (path : List String) (n : String) : List String :=
  path.dropWhile (fun x => x != n) ++ [n]

mutual

/-- The recursive `dfs` helper of `_validate_acyclic`: visits `node`, explores
its dependencies, and returns the updated visited set, the updated recursion
stack and a cycle path when a back edge is found.  `fuel` bounds the recursion
depth (each nested call visits a previously unvisited node, so any fuel larger
than the number of distinct ids suffices; concrete runs use `dfsFuel`). -/
def dfsNode (g : Dict (List String)) :
    Nat → String → List String → List String → List String →
    List String × List String × Option (List String)
  | 0, _, visited, recStack, _ => (visited, recStack, none)
  | Nat.succ fuel, node, visited, recStack, path =>
      let visited := node :: visited
      let recStack := node :: recStack
      let path := path ++ [node]
      match dfsNeighbors g fuel (graphGet g node) visited recStack path with
      | (v, r, some cyc) => (v, r, some cyc)
      | (v, r, none) => (v, r.erase node, none)

/-- The `for neighbor in self.dependency_graph.get(node, [])` loop of `dfs`. -/
def dfsNeighbors (g : Dict (List String)) :
    Nat → List String → List String → List String → List String →
    List String × List String × Option (List String)
  | _, [], visited, recStack, _ => (visited, recStack, none)
  | fuel, n :: ns, visited, recStack, path =>
      if !visited.contains n then
        match dfsNode g fuel n visited recStack path with
        | (v, r, some cyc) => (v, r, some cyc)
        | (v, r, none) => dfsNeighbors g fuel ns v r path
      else if recStack.contains n then
        (visited, recStack, some (cycleFrom path n))
      else
        dfsNeighbors g fuel ns visited recStack path

end

/-- Fuel that can never be exhausted: one unit per id occurring in the graph. -/
def dfsFuel (g : Dict (List String)) : Nat :=
  g.length + (g.map (fun p => p.2.length)).foldl (· + ·) 0 + 1

/-- The `for node in self.dependency_graph` root loop of `_validate_acyclic`,
threading the shared visited set. -/
def validateAcyclicGo (g : Dict (List String)) (fuel : Nat) :
    List String → List String → Option (List String)
  | [], _ => none
  | node :: rest, visited =>
      if !visited.contains node then
        match dfsNode g fuel node visited [] [] with
        | (_, _, some cyc) => some cyc
        | (v, _, none) => validateAcyclicGo g fuel rest v
      else
        validateAcyclicGo g fuel rest visited

/-- `BindingEngine._validate_acyclic`: `some cyclePath` models the raised
`CircularDependencyError`. -/
def validateAcyclic (g : Dict (List String)) : Option (List String) :=
  validateAcyclicGo g (dfsFuel g) (dictKeys g) []

/-- `BindingEngine.register`: inserts the symbol and its adjacency entry,
then re-validates the whole graph; a detected cycle raises (first component
`some cycle`) with the engine state as mutated so far.  On success a
CREATED→DORMANT transition is appended to the ledger. -/
def register (s : EngineState) (symbol : LatentSymbol) :
    Option (List String) × EngineState :=
  let s1 : EngineState :=
    { s with
      symbol_registry := dictInsert s.symbol_registry symbol.id symbol
      dependency_graph := dictInsert s.dependency_graph symbol.id symbol.depends_on }
  match validateAcyclic s1.dependency_graph with
  | some cyc => (some cyc, s1)
  | none =>
      (none,
       { s1 with
         ledger := s1.ledger ++ [⟨symbol.id, .created, .dormant, "Registered"⟩] })

/-! ## engine.py: the binding core -/

/-- The six checkers of `BindingEngine.bind`, run in order (dependency,
expiration, who, where, state, when) with every failing diagnostic collected. -/
def collectFailureReasons (iso : String → Option Int) (activated : List String)
    (symbol : LatentSymbol) (context : Context) : List FailureReason :=
  [DependencyChecker.check activated symbol,
   ExpirationChecker.check iso symbol context,
   WhoChecker.check symbol context,
   WhereChecker.check symbol context,
   StateChecker.check symbol context,
   WhenChecker.check iso symbol context].filterMap id

/-- `BindingEngine._calculate_weight` (float conversion abstracted). -/
def calculateWeight (symbol : LatentSymbol) : Val :=
  (dictGet? symbol.payload "weight").getD (.vInt 1)

/-- `BindingEngine.bind`: attempt to bind `symbol` against `context`,
returning the optional bound symbol and the updated engine state.  Guard
mismatches never raise: they produce a failed attempt carrying all collected
diagnostics (plus a DORMANT→EXPIRED ledger entry when an `expired` diagnostic
is present). -/
def bind (iso : String → Option Int) (s : EngineState) (symbol : LatentSymbol)
    (context : Context) : Option BoundSymbol × EngineState :=
  let failure_reasons := collectFailureReasons iso s.activated_symbols symbol context
  if failure_reasons.isEmpty then
    let bound : BoundSymbol :=
      ⟨symbol.id, symbol.symbol_type, symbol.payload, calculateWeight symbol, context, none⟩
    let s :=
      { s with
        activated_symbols := setAdd s.activated_symbols symbol.id
        ledger := s.ledger ++ [⟨symbol.id, .dormant, .activated, "Binding success"⟩]
        audit_trail := s.audit_trail ++ [⟨symbol.id, context, true, some symbol.id, [], none⟩] }
    (some bound, s)
  else
    let attempt : BindingAttempt := ⟨symbol.id, context, false, none, failure_reasons, none⟩
    let s := { s with audit_trail := s.audit_trail ++ [attempt] }
    let s :=
      if failure_reasons.any (fun r => r.condition_type == "expired") then
        { s with ledger := s.ledger ++ [⟨symbol.id, .dormant, .expired, "Deadline passed"⟩] }
      else s
    (none, s)

/-! ## engine.py: the cascade scheduler (`bind_all_registered`) -/

/-- The cheap precondition prefilter of `bind_all_registered`: the `matches`
checks run in code order (dependency, when, state, who, where). -/
def prefilter (iso : String → Option Int) (activated : List String)
    (symbol : LatentSymbol) (context : Context) : Bool :=
  DependencyChecker.matches' activated symbol &&
  WhenChecker.matches' iso symbol context &&
  StateChecker.matches' symbol context &&
  WhoChecker.matches' symbol context &&
  WhereChecker.matches' symbol context

/-- One round of the cascade: iterate the registry in insertion order,
skipping consumed ids, prefiltering, and binding eligible symbols.  Returns
the symbols bound this round (in registry order), the engine state and the
consumed set. -/
def sweepRound (iso : String → Option Int) :
    List (String × LatentSymbol) → EngineState → Context → List String →
    List BoundSymbol × EngineState × List String
  | [], s, _, consumed => ([], s, consumed)
  | (sym_id, symbol) :: rest, s, ctx, consumed =>
      if consumed.contains sym_id then
        sweepRound iso rest s ctx consumed
      else if !prefilter iso s.activated_symbols symbol ctx then
        sweepRound iso rest s ctx consumed
      else
        match bind iso s symbol ctx with
        | (some b, s') =>
            let consumed' :=
              if symbol.consumption == "one_shot" then setAdd consumed sym_id else consumed
            let (bs, s'', c'') := sweepRound iso rest s' ctx consumed'
            (b :: bs, s'', c'')
        | (none, s') => sweepRound iso rest s' ctx consumed

/-- Apply one bound symbol's `state_mutation` dict to the context in key
order, recording each change (a missing old value is recorded as `None`). -/
def applyMutationPairs : List (String × Val) → Context → List StateChange × Context
  | [], ctx => ([], ctx)
  | (key, value) :: rest, ctx =>
      let old := (dictGet? ctx.state key).getD .vNone
      let ctx' := ctx.with_state_update key value
      let (cs, ctxF) := applyMutationPairs rest ctx'
      (⟨key, old, value⟩ :: cs, ctxF)

/-- Replace the first matching successful attempt (scanning this list from
the front; callers pass the reversed trail). -/
def replaceFirstSuccess (sid : String) (cs : List StateChange) :
    List BindingAttempt → List BindingAttempt
  | [] => []
  | a :: rest =>
      if a.symbol_id == sid && a.success then
        { a with state_changes_applied := some cs } :: rest
      else a :: replaceFirstSuccess sid cs rest

/-- `BindingEngine._update_audit_with_state_changes`: rebuild the most recent
successful attempt for `sid` with the applied state changes. -/
def updateAuditWithStateChanges (s : EngineState) (sid : String)
    (cs : List StateChange) : EngineState :=
  { s with audit_trail := (replaceFirstSuccess sid cs s.audit_trail.reverse).reverse }

/-- The post-round mutation pass: for each bound symbol of the round (in
round order), apply its `state_mutation` dict (last write wins), record the
changes on the bound symbol and on its audit attempt.  A non-dict
`state_mutation` value raises (`AttributeError` on `.items()`). -/
def applyMutations : List BoundSymbol → Context → EngineState →
    Except String (List BoundSymbol × Context × EngineState)
  | [], ctx, s => .ok ([], ctx, s)
  | b :: bs, ctx, s =>
      match dictGet? b.effect "state_mutation" with
      | none =>
          match applyMutations bs ctx s with
          | .error e => .error e
          | .ok (bs', ctx', s') => .ok (b :: bs', ctx', s')
      | some (.vDict m) =>
          let (changes, ctx') := applyMutationPairs m.toList ctx
          let b' := { b with state_changes_applied := some changes }
          let s' := updateAuditWithStateChanges s b.symbol_id changes
          match applyMutations bs ctx' s' with
          | .error e => .error e
          | .ok (bs', ctx'', s'') => .ok (b' :: bs', ctx'', s'')
      | some _ => .error "AttributeError: object has no attribute items"

/-- The `for iteration in range(max_iterations)` loop of
`bind_all_registered`, returning the per-round bound lists (round-major). -/
def bindAllRegisteredAux (iso : String → Option Int) (applyMut : Bool) :
    Nat → EngineState → Context → List String →
    Except String (List (List BoundSymbol) × Context × EngineState × List String)
  | 0, s, ctx, consumed => .ok ([], ctx, s, consumed)
  | Nat.succ n, s, ctx, consumed =>
      let (bs, s', consumed') := sweepRound iso s.symbol_registry s ctx consumed
      if bs.isEmpty then .ok ([], ctx, s', consumed')
      else if applyMut then
        match applyMutations bs ctx s' with
        | .error e => .error e
        | .ok (bs2, ctx', s2) =>
            match bindAllRegisteredAux iso applyMut n s2 ctx' consumed' with
            | .error e => .error e
            | .ok (rounds, ctxF, sF, cF) => .ok (bs2 :: rounds, ctxF, sF, cF)
      else
        match bindAllRegisteredAux iso applyMut n s' ctx consumed' with
        | .error e => .error e
        | .ok (rounds, ctxF, sF, cF) => .ok (bs :: rounds, ctxF, sF, cF)

/-- `BindingEngine.bind_all_registered`: multi-round cascade with an empty
initial consumed set; results are the concatenation of the rounds. -/
def bind_all_registered (iso : String → Option Int) (s : EngineState)
    (context : Context) (max_iterations : Nat) (apply_state_mutations : Bool) :
    Except String (List BoundSymbol × Context × EngineState) :=
  match bindAllRegisteredAux iso apply_state_mutations max_iterations s context [] with
  | .error e => .error e
  | .ok (rounds, ctxF, sF, _) => .ok (rounds.flatten, ctxF, sF)

/-! ## composition.py: the combinator algebra -/

/-- `BindingStatus`. -/
inductive BindingStatus where
  | bound
  | latent
deriving DecidableEq, Repr

/-- `BindingResult` (dataclass). -/
structure BindingResult where
  status : BindingStatus
  bound : Option BoundSymbol
  bound_all : Option (List BoundSymbol)
  source : Option LatentSymbol
deriving DecidableEq, Repr

/-- `BindingResult.success`. -/
def BindingResult.success (b : BoundSymbol) : BindingResult :=
  ⟨.bound, some b, none, none⟩

/-- `BindingResult.success_all`: `bound_list[-1]` raises `IndexError` on an
empty list. -/
def BindingResult.success_all (bound_list : List BoundSymbol) :
    Except String BindingResult :=
  match bound_list.getLast? with
  | some last => .ok ⟨.bound, some last, some bound_list, none⟩
  | none => .error "IndexError: list index out of range"

/-- `BindingResult.still_latent`. -/
def BindingResult.still_latent (symbol : LatentSymbol) : BindingResult :=
  ⟨.latent, none, none, some symbol⟩

/-- `BindingResult.is_bound`. -/
def BindingResult.is_bound (r : BindingResult) : Bool :=
  r.status == .bound

/-- The closed combinator tree: `Sym`, `Alternative`, `Sequential`,
`Parallel`. -/
inductive Comb where
  | atom (symbol : LatentSymbol)
  | alternative (left right : Comb)
  | sequential (left right : Comb)
  | parallel (items : List Comb)

mutual

/-- `try_bind` of the four node kinds, threading the engine state (every
attempt is recorded through `BindingEngine.bind`). -/
def tryBind (iso : String → Option Int) :
    Comb → Context → EngineState → Except String (BindingResult × EngineState)
  | .atom symbol, ctx, s =>
      match bind iso s symbol ctx with
      | (some b, s') => .ok (BindingResult.success b, s')
      | (none, s') => .ok (BindingResult.still_latent symbol, s')
  | .alternative l r, ctx, s =>
      match tryBind iso l ctx s with
      | .error e => .error e
      | .ok (res, s') =>
          if res.is_bound then .ok (res, s')
          else tryBind iso r ctx s'
  | .sequential l r, ctx, s =>
      match tryBind iso l ctx s with
      | .error e => .error e
      | .ok (res, s') =>
          if !res.is_bound then .ok (res, s')
          else tryBind iso r ctx s'
  | .parallel items, ctx, s =>
      match tryBindList iso items ctx s with
      | .error e => .error e
      | .ok (results, s') =>
          if results.all (fun r => r.is_bound) then
            match BindingResult.success_all (results.filterMap (fun r => r.bound)) with
            | .ok r => .ok (r, s')
            | .error e => .error e
          else
            match results.find? (fun r => !r.is_bound) with
            | some r => .ok (r, s')
            | none =>
                match results.head? with
                | some r => .ok (r, s')
                | none => .error "IndexError: list index out of range"

/-- The `[item.try_bind(context, engine) for item in self.items]`
comprehension: every child is evaluated unconditionally, left to right. -/
def tryBindList (iso : String → Option Int) :
    List Comb → Context → EngineState → Except String (List BindingResult × EngineState)
  | [], _, s => .ok ([], s)
  | c :: cs, ctx, s =>
      match tryBind iso c ctx s with
      | .error e => .error e
      | .ok (r, s') =>
          match tryBindList iso cs ctx s' with
          | .error e => .error e
          | .ok (rs, s'') => .ok (r :: rs, s'')

end

/-! ## Basic dictionary lemmas -/

theorem dictGet?_dictInsert_self {α : Type} (d : Dict α) (k : String) (v : α) :
    dictGet? (dictInsert d k v) k = some v := by
  induction d with
  | nil =>
      unfold dictInsert dictGet?
      rw [List.find?_cons_of_pos _ (by simp)]
      rfl
  | cons p rest ih =>
      obtain ⟨k2, v2⟩ := p
      by_cases h : k2 = k
      · subst h
        simp only [dictInsert, beq_self_eq_true, if_true]
        unfold dictGet?
        rw [List.find?_cons_of_pos _ (by simp)]
        rfl
      · simp only [dictInsert, beq_iff_eq, h, if_false]
        unfold dictGet?
        rw [List.find?_cons_of_neg _ (by simp [h])]
        simpa [dictGet?] using ih

theorem dictGet?_dictInsert_ne {α : Type} (d : Dict α) (k k' : String) (v : α)
    (h : k' ≠ k) : dictGet? (dictInsert d k v) k' = dictGet? d k' := by
  induction d with
  | nil =>
      unfold dictInsert dictGet?
      rw [List.find?_cons_of_neg _ (by simp [Ne.symm h])]
  | cons p rest ih =>
      obtain ⟨k2, v2⟩ := p
      by_cases h2 : k2 = k
      · subst h2
        simp only [dictInsert, beq_self_eq_true, if_true]
        unfold dictGet?
        rw [List.find?_cons_of_neg _ (by simp [Ne.symm h]),
            List.find?_cons_of_neg _ (by simp [Ne.symm h])]
      · simp only [dictInsert, beq_iff_eq, h2, if_false]
        unfold dictGet?
        by_cases h3 : k2 = k'
        · subst h3
          rw [List.find?_cons_of_pos _ (by simp), List.find?_cons_of_pos _ (by simp)]
        · rw [List.find?_cons_of_neg _ (by simp [h3]), List.find?_cons_of_neg _ (by simp [h3])]
          simpa [dictGet?] using ih

/-! ## Checker equivalence: `check` returns nothing iff `matches` passes -/

theorem WhoChecker.who_check_none_iff (symbol : LatentSymbol) (context : Context) :
    WhoChecker.check symbol context = none ↔ WhoChecker.matches' symbol context = true := by
  unfold WhoChecker.check
  by_cases h : WhoChecker.matches' symbol context = true <;> simp [h]

theorem WhereChecker.where_check_none_iff (symbol : LatentSymbol) (context : Context) :
    WhereChecker.check symbol context = none ↔ WhereChecker.matches' symbol context = true := by
  unfold WhereChecker.check
  by_cases h : WhereChecker.matches' symbol context = true <;> simp [h]

theorem DependencyChecker.dep_check_none_iff (activated : List String) (symbol : LatentSymbol) :
    DependencyChecker.check activated symbol = none ↔
      DependencyChecker.matches' activated symbol = true := by
  unfold DependencyChecker.check DependencyChecker.matches'
  cases hd : symbol.depends_on with
  | nil => simp
  | cons d ds =>
      simp only [List.isEmpty_cons, Bool.false_eq_true, if_false]
      cases hf : (d :: ds).find? (fun dep => !activated.contains dep) with
      | none =>
          rw [List.find?_eq_none] at hf
          simp only [List.all_eq_true, true_iff]
          intro x hx
          have := hf x hx
          simpa using this
      | some dep =>
          have hmem := List.find?_some hf
          have hdep := List.mem_of_find?_eq_some hf
          simp only [reduceCtorEq, false_iff, List.all_eq_true]
          intro hall
          have := hall dep hdep
          rw [this] at hmem
          simp at hmem

theorem StateChecker.state_check_none_iff (symbol : LatentSymbol) (context : Context) :
    StateChecker.check symbol context = none ↔ StateChecker.matches' symbol context = true := by
  unfold StateChecker.check StateChecker.matches'
  cases hgs : symbol.gate.state with
  | none => simp
  | some gs =>
      cases hl : gs with
      | nil => simp
      | cons q qs =>
          simp only [List.isEmpty_cons, Bool.false_eq_true, if_false]
          cases hf : (q :: qs).find?
              (fun p => !pyEq ((dictGet? context.state p.1).getD .vNone) p.2) with
          | none =>
              rw [List.find?_eq_none] at hf
              simp only [List.all_eq_true, true_iff]
              intro x hx
              have := hf x hx
              simpa using this
          | some p =>
              obtain ⟨k, expected⟩ := p
              have hmem := List.find?_some hf
              have hp := List.mem_of_find?_eq_some hf
              simp only [reduceCtorEq, false_iff, List.all_eq_true]
              intro hall
              have := hall _ hp
              rw [this] at hmem
              simp at hmem

theorem WhenChecker.when_check_none_iff (iso : String → Option Int) (symbol : LatentSymbol)
    (context : Context) :
    WhenChecker.check iso symbol context = none ↔
      WhenChecker.matches' iso symbol context = true := by
  unfold WhenChecker.check WhenChecker.matches'
  cases hw : symbol.gate.when with
  | none => simp
  | some w =>
      by_cases h : w == ""
      · simp [h]
      · simp only [h, if_false]
        cases hp : TemporalExpression.parse iso w with
        | error e => simp
        | ok expr =>
            by_cases he : expr.evaluate context = true <;> simp [he]

theorem ExpirationChecker.check_eq_none_of_when (iso : String → Option Int)
    (symbol : LatentSymbol) (context : Context)
    (h : WhenChecker.matches' iso symbol context = true) :
    ExpirationChecker.check iso symbol context = none := by
  unfold WhenChecker.matches' at h
  unfold ExpirationChecker.check
  cases hw : symbol.gate.when with
  | none => simp
  | some w =>
      rw [hw] at h
      by_cases he : w = ""
      · simp [he]
      · simp only [beq_iff_eq, he, if_false] at h ⊢
        by_cases hb : w.startsWith "before:"
        · simp only [hb, Bool.not_true, Bool.false_eq_true, if_false]
          cases hp : TemporalExpression.parse iso w with
          | error e => simp
          | ok expr =>
              rw [hp] at h
              cases expr with
              | dateTimeTemporal op ref =>
                  simp at h
                  simp [h]
              | stateTemporal key => simp
        · simp [hb]

theorem ExpirationChecker.matches_of_when (iso : String → Option Int)
    (symbol : LatentSymbol) (context : Context)
    (h : WhenChecker.matches' iso symbol context = true) :
    ExpirationChecker.matches' iso symbol context = true := by
  unfold WhenChecker.matches' at h
  unfold ExpirationChecker.matches'
  cases hw : symbol.gate.when with
  | none => simp
  | some w =>
      rw [hw] at h
      by_cases he : w = ""
      · simp [he]
      · simp only [beq_iff_eq, he, if_false] at h ⊢
        by_cases hb : w.startsWith "before:"
        · simp only [hb, Bool.not_true, Bool.false_eq_true, if_false]
          cases hp : TemporalExpression.parse iso w with
          | error e => simp
          | ok expr =>
              rw [hp] at h
              cases expr with
              | dateTimeTemporal op ref =>
                  simp at h
                  simp [h]
              | stateTemporal key => simp
        · simp [hb]

/-- The full six-checker pipeline collects no diagnostic iff each of the six
`check` calls returns nothing. -/
theorem collectFailureReasons_eq_nil_iff (iso : String → Option Int)
    (activated : List String) (symbol : LatentSymbol) (context : Context) :
    collectFailureReasons iso activated symbol context = [] ↔
      (DependencyChecker.check activated symbol = none ∧
       ExpirationChecker.check iso symbol context = none ∧
       WhoChecker.check symbol context = none ∧
       WhereChecker.check symbol context = none ∧
       StateChecker.check symbol context = none ∧
       WhenChecker.check iso symbol context = none) := by
  unfold collectFailureReasons
  cases DependencyChecker.check activated symbol <;>
    cases ExpirationChecker.check iso symbol context <;>
    cases WhoChecker.check symbol context <;>
    cases WhereChecker.check symbol context <;>
    cases StateChecker.check symbol context <;>
    cases WhenChecker.check iso symbol context <;>
    simp [List.filterMap]

/-- The coded prefilter (five `matches` calls) is equivalent to the full
check pipeline collecting no failure. -/
theorem prefilter_iff_no_failure (iso : String → Option Int) (activated : List String)
    (symbol : LatentSymbol) (context : Context) :
    prefilter iso activated symbol context = true ↔
      collectFailureReasons iso activated symbol context = [] := by
  rw [collectFailureReasons_eq_nil_iff]
  unfold prefilter
  constructor
  · intro h
    simp only [Bool.and_eq_true] at h
    obtain ⟨⟨⟨⟨hdep, hwhen⟩, hstate⟩, hwho⟩, hwhere⟩ := h
    refine ⟨(DependencyChecker.dep_check_none_iff _ _).mpr hdep,
           ExpirationChecker.check_eq_none_of_when iso symbol context hwhen,
           (WhoChecker.who_check_none_iff _ _).mpr hwho,
           (WhereChecker.where_check_none_iff _ _).mpr hwhere,
           (StateChecker.state_check_none_iff _ _).mpr hstate,
           (WhenChecker.when_check_none_iff _ _ _).mpr hwhen⟩
  · intro h
    obtain ⟨hdep, _, hwho, hwhere, hstate, hwhen⟩ := h
    simp only [Bool.and_eq_true]
    exact ⟨⟨⟨⟨(DependencyChecker.dep_check_none_iff _ _).mp hdep,
        (WhenChecker.when_check_none_iff _ _ _).mp hwhen⟩,
        (StateChecker.state_check_none_iff _ _).mp hstate⟩,
        (WhoChecker.who_check_none_iff _ _).mp hwho⟩,
        (WhereChecker.where_check_none_iff _ _).mp hwhere⟩

/-- C2: for every activated set, unit and context, the cascade scheduler's
cheap prefilter coincides with the conjunction of all six checkers' `matches`
(the expiration `matches` is subsumed by the temporal one), and it passes
exactly when the full `check` pipeline of the Binding Core collects no
failure diagnostic: the prefilter path and the full-check path are
semantically identical. -/
theorem C2_prefilter_equivalent_to_full_check (iso : String → Option Int)
    (activated : List String) (symbol : LatentSymbol) (context : Context) :
    (prefilter iso activated symbol context =
      (DependencyChecker.matches' activated symbol &&
       ExpirationChecker.matches' iso symbol context &&
       WhoChecker.matches' symbol context &&
       WhereChecker.matches' symbol context &&
       StateChecker.matches' symbol context &&
       WhenChecker.matches' iso symbol context)) ∧
    (prefilter iso activated symbol context = true ↔
      collectFailureReasons iso activated symbol context = []) := by
  constructor
  · by_cases hw : WhenChecker.matches' iso symbol context = true
    · have he := ExpirationChecker.matches_of_when iso symbol context hw
      unfold prefilter
      rw [hw, he]
      cases DependencyChecker.matches' activated symbol <;>
        cases WhoChecker.matches' symbol context <;>
        cases WhereChecker.matches' symbol context <;>
        cases StateChecker.matches' symbol context <;> simp
    · have hw' : WhenChecker.matches' iso symbol context = false :=
        Bool.eq_false_iff.mpr hw
      unfold prefilter
      rw [hw']
      simp
  · exact prefilter_iff_no_failure iso activated symbol context

/-! ## Shape lemmas for the six checkers' diagnostics -/

theorem DependencyChecker.dep_check_shape (activated : List String) (symbol : LatentSymbol) :
    DependencyChecker.check activated symbol = none ∨
    ∃ d, symbol.depends_on.find? (fun dep => !activated.contains dep) = some d ∧
      DependencyChecker.check activated symbol =
        some ⟨"dependency", .vStr d, .vStr "not activated", "dependency not yet activated"⟩ := by
  unfold DependencyChecker.check
  split
  · exact Or.inl rfl
  · cases hf : symbol.depends_on.find? (fun dep => !activated.contains dep) with
    | none => exact Or.inl rfl
    | some d => exact Or.inr ⟨d, rfl, rfl⟩

theorem ExpirationChecker.exp_check_shape (iso : String → Option Int) (symbol : LatentSymbol)
    (context : Context) :
    ExpirationChecker.check iso symbol context = none ∨
    ∃ e a m, ExpirationChecker.check iso symbol context = some ⟨"expired", e, a, m⟩ := by
  unfold ExpirationChecker.check
  repeat' split
  all_goals first
    | exact Or.inl rfl
    | exact Or.inr ⟨_, _, _, rfl⟩

theorem WhoChecker.who_check_shape (symbol : LatentSymbol) (context : Context) :
    WhoChecker.check symbol context = none ∨
    ∃ e a m, WhoChecker.check symbol context = some ⟨"who", e, a, m⟩ := by
  unfold WhoChecker.check
  split
  · exact Or.inl rfl
  · exact Or.inr ⟨_, _, _, rfl⟩

theorem WhereChecker.where_check_shape (symbol : LatentSymbol) (context : Context) :
    WhereChecker.check symbol context = none ∨
    ∃ e a m, WhereChecker.check symbol context = some ⟨"where", e, a, m⟩ := by
  unfold WhereChecker.check
  split
  · exact Or.inl rfl
  · exact Or.inr ⟨_, _, _, rfl⟩

theorem StateChecker.state_check_shape (symbol : LatentSymbol) (context : Context) :
    StateChecker.check symbol context = none ∨
    ∃ e a m, StateChecker.check symbol context = some ⟨"state", e, a, m⟩ := by
  unfold StateChecker.check
  repeat' split
  all_goals first
    | exact Or.inl rfl
    | exact Or.inr ⟨_, _, _, rfl⟩

theorem WhenChecker.when_check_shape (iso : String → Option Int) (symbol : LatentSymbol)
    (context : Context) :
    WhenChecker.check iso symbol context = none ∨
    ∃ e a m, WhenChecker.check iso symbol context = some ⟨"when", e, a, m⟩ := by
  unfold WhenChecker.check
  repeat' split
  all_goals first
    | exact Or.inl rfl
    | exact Or.inr ⟨_, _, _, rfl⟩

/-! ## Unfolding lemmas for `bind` -/

theorem bind_fst_none_iff (iso : String → Option Int) (s : EngineState)
    (symbol : LatentSymbol) (context : Context) :
    (bind iso s symbol context).1 = none ↔
      collectFailureReasons iso s.activated_symbols symbol context ≠ [] := by
  simp only [bind]
  cases hc : collectFailureReasons iso s.activated_symbols symbol context with
  | nil => simp
  | cons a l => simp

theorem bind_failure_eq (iso : String → Option Int) (s : EngineState)
    (symbol : LatentSymbol) (context : Context)
    (h : collectFailureReasons iso s.activated_symbols symbol context ≠ []) :
    bind iso s symbol context =
      (none,
       { s with
         audit_trail := s.audit_trail ++
           [⟨symbol.id, context, false, none,
             collectFailureReasons iso s.activated_symbols symbol context, none⟩]
         ledger := s.ledger ++
           (if (collectFailureReasons iso s.activated_symbols symbol context).any
                (fun r => r.condition_type == "expired") then
              [⟨symbol.id, SymbolState.dormant, SymbolState.expired, "Deadline passed"⟩]
            else []) }) := by
  simp only [bind]
  have hie : (collectFailureReasons iso s.activated_symbols symbol context).isEmpty = false := by
    cases hc : collectFailureReasons iso s.activated_symbols symbol context with
    | nil => exact absurd hc h
    | cons a l => rfl
  rw [hie]
  simp only [Bool.false_eq_true, if_false]
  by_cases ha : (collectFailureReasons iso s.activated_symbols symbol context).any
      (fun r => r.condition_type == "expired") = true
  · rw [if_pos ha, if_pos ha]
  · rw [if_neg ha, if_neg ha]
    simp

theorem bind_success_eq (iso : String → Option Int) (s : EngineState)
    (symbol : LatentSymbol) (context : Context)
    (h : collectFailureReasons iso s.activated_symbols symbol context = []) :
    bind iso s symbol context =
      (some ⟨symbol.id, symbol.symbol_type, symbol.payload, calculateWeight symbol,
             context, none⟩,
       { s with
         activated_symbols := setAdd s.activated_symbols symbol.id
         ledger := s.ledger ++ [⟨symbol.id, SymbolState.dormant, SymbolState.activated,
                                "Binding success"⟩]
         audit_trail := s.audit_trail ++ [⟨symbol.id, context, true, some symbol.id, [], none⟩] }) := by
  simp only [bind, h]
  rfl

/-- C4: whenever any checker fails, `bind` returns nothing (it is a total
function: guard mismatches never raise), records exactly one failed attempt
carrying every collected diagnostic of the six checkers, appends a
DORMANT→EXPIRED transition exactly when an `expired` diagnostic was
collected, and leaves the activated set, registry and dependency graph
untouched. -/
theorem C4_bind_failure_behaviour (iso : String → Option Int) (s : EngineState)
    (symbol : LatentSymbol) (context : Context)
    (h : collectFailureReasons iso s.activated_symbols symbol context ≠ []) :
    (bind iso s symbol context).1 = none ∧
    (bind iso s symbol context).2.audit_trail =
      s.audit_trail ++
        [⟨symbol.id, context, false, none,
          collectFailureReasons iso s.activated_symbols symbol context, none⟩] ∧
    (bind iso s symbol context).2.ledger =
      s.ledger ++
        (if (collectFailureReasons iso s.activated_symbols symbol context).any
             (fun r => r.condition_type == "expired") then
           [⟨symbol.id, SymbolState.dormant, SymbolState.expired, "Deadline passed"⟩]
         else []) ∧
    (bind iso s symbol context).2.activated_symbols = s.activated_symbols ∧
    (bind iso s symbol context).2.symbol_registry = s.symbol_registry ∧
    (bind iso s symbol context).2.dependency_graph = s.dependency_graph := by
  rw [bind_failure_eq iso s symbol context h]
  exact ⟨rfl, rfl, rfl, rfl, rfl, rfl⟩

/-- An `iso` oracle on which every ISO-datetime parse raises; the concrete
witnesses below only use gates without datetime references. -/
def isoNone : String → Option Int := fun _ => none

/-- A unit whose actor gate excludes the witness context's actor. -/
def symWhoGated : LatentSymbol :=
  ⟨"w1", "STORY:w", ⟨some ["bob"], none, none, none⟩, [], [], [], "one_shot"⟩

/-- A witness context with actor alice. -/
def ctxAlice : Context := ⟨some "alice", 0, "lab", []⟩

/-- Witness for C4 at a concrete failing bind. -/
theorem C4_bind_failure_behaviour_witness :
    (bind isoNone EngineState.init symWhoGated ctxAlice).1 = none :=
  (C4_bind_failure_behaviour isoNone EngineState.init symWhoGated ctxAlice (by decide)).1

/-- C10: every failed attempt recorded by `bind` carries between 1 and 6
failure reasons with pairwise distinct condition types (at most one per
checker), and a `dependency` diagnostic always reports the first unmet
dependency in declaration order. -/
theorem C10_failure_reasons_structure (iso : String → Option Int) (s : EngineState)
    (symbol : LatentSymbol) (context : Context)
    (h : (bind iso s symbol context).1 = none) :
    1 ≤ (collectFailureReasons iso s.activated_symbols symbol context).length ∧
    (collectFailureReasons iso s.activated_symbols symbol context).length ≤ 6 ∧
    ((collectFailureReasons iso s.activated_symbols symbol context).map
        (fun r => r.condition_type)).Nodup ∧
    (∀ r ∈ collectFailureReasons iso s.activated_symbols symbol context,
       r.condition_type = "dependency" →
       ∃ d, symbol.depends_on.find? (fun dep => !s.activated_symbols.contains dep) = some d ∧
            r.expected = .vStr d) := by
  have hne : collectFailureReasons iso s.activated_symbols symbol context ≠ [] :=
    (bind_fst_none_iff iso s symbol context).mp h
  rcases DependencyChecker.dep_check_shape s.activated_symbols symbol with h1 | ⟨d, hfind, h1⟩ <;>
  rcases ExpirationChecker.exp_check_shape iso symbol context with h2 | ⟨e2, a2, m2, h2⟩ <;>
  rcases WhoChecker.who_check_shape symbol context with h3 | ⟨e3, a3, m3, h3⟩ <;>
  rcases WhereChecker.where_check_shape symbol context with h4 | ⟨e4, a4, m4, h4⟩ <;>
  rcases StateChecker.state_check_shape symbol context with h5 | ⟨e5, a5, m5, h5⟩ <;>
  rcases WhenChecker.when_check_shape iso symbol context with h6 | ⟨e6, a6, m6, h6⟩ <;>
  simp only [collectFailureReasons, h1, h2, h3, h4, h5, h6, List.filterMap_cons, id_eq,
    List.filterMap_nil] at hne ⊢ <;>
  first
    | exact absurd rfl hne
    | (refine ⟨by simp, by simp, by simp, ?_⟩
       intro r hr hct
       fin_cases hr <;>
         first
           | (exfalso; revert hct; simp; done)
           | exact ⟨d, hfind, rfl⟩)

/-- A unit with an unmet dependency and an excluded actor, so a failed bind
collects two diagnostics. -/
def symDepWhoGated : LatentSymbol :=
  ⟨"w2", "STORY:x", ⟨some ["bob"], none, none, none⟩, [], [], ["missing"], "one_shot"⟩

/-- Witness for C10 at a concrete failing bind with two diagnostics. -/
theorem C10_failure_reasons_structure_witness :
    ((collectFailureReasons isoNone EngineState.init.activated_symbols symDepWhoGated
        ctxAlice).map (fun r => r.condition_type)).Nodup :=
  (C10_failure_reasons_structure isoNone EngineState.init symDepWhoGated ctxAlice
    (by decide)).2.2.1

/-! ## Ledger legality -/

/-- A transition record permitted by the state machine's legal table. -/
def legalTransition (t : StateTransition) : Prop :=
  SymbolStateMachine.validate t.from_state t.to_state = true

/-- Every transition in the engine's ledger is legal. -/
def ledgerLegal (s : EngineState) : Prop := ∀ t ∈ s.ledger, legalTransition t

theorem register_ledgerLegal (s : EngineState) (symbol : LatentSymbol)
    (h : ledgerLegal s) : ledgerLegal (register s symbol).2 := by
  cases hv : validateAcyclic (dictInsert s.dependency_graph symbol.id symbol.depends_on) with
  | some cyc =>
      simp only [register, hv]
      exact h
  | none =>
      simp only [register, hv]
      intro t ht
      simp only [List.mem_append, List.mem_singleton] at ht
      rcases ht with ht | rfl
      · exact h t ht
      · rfl

theorem bind_ledgerLegal (iso : String → Option Int) (s : EngineState)
    (symbol : LatentSymbol) (context : Context) (h : ledgerLegal s) :
    ledgerLegal (bind iso s symbol context).2 := by
  by_cases hc : collectFailureReasons iso s.activated_symbols symbol context = []
  · rw [bind_success_eq iso s symbol context hc]
    intro t ht
    simp only [List.mem_append, List.mem_singleton] at ht
    rcases ht with ht | rfl
    · exact h t ht
    · rfl
  · rw [bind_failure_eq iso s symbol context hc]
    intro t ht
    simp only [List.mem_append, List.mem_singleton] at ht
    rcases ht with ht | ht
    · exact h t ht
    · split at ht
      · simp only [List.mem_singleton] at ht
        subst ht
        rfl
      · simp at ht

theorem sweepRound_ledgerLegal (iso : String → Option Int) :
    ∀ (l : List (String × LatentSymbol)) (s : EngineState) (ctx : Context)
      (consumed : List String), ledgerLegal s →
      ledgerLegal (sweepRound iso l s ctx consumed).2.1 := by
  intro l
  induction l with
  | nil => intro s ctx consumed h; simpa [sweepRound] using h
  | cons p rest ih =>
      intro s ctx consumed h
      obtain ⟨sym_id, symbol⟩ := p
      by_cases h1 : sym_id ∈ consumed
      · simpa [sweepRound, h1] using ih s ctx consumed h
      · by_cases h2 : prefilter iso s.activated_symbols symbol ctx = true
        · rcases hb : bind iso s symbol ctx with ⟨ob, s'⟩
          have hleg : ledgerLegal s' := by
            have := bind_ledgerLegal iso s symbol ctx h
            rwa [hb] at this
          cases ob with
          | some b =>
              simp only [sweepRound, hb]
              simp [h1, h2]
              exact ih s' ctx _ hleg
          | none =>
              simp only [sweepRound, hb]
              simp [h1, h2]
              exact ih s' ctx consumed hleg
        · simp only [sweepRound]
          simp [h1, h2]
          exact ih s ctx consumed h

theorem applyMutations_ledger_eq :
    ∀ (bs : List BoundSymbol) (ctx : Context) (s : EngineState) out,
      applyMutations bs ctx s = .ok out → out.2.2.ledger = s.ledger := by
  intro bs
  induction bs with
  | nil =>
      intro ctx s out hok
      simp only [applyMutations] at hok
      cases hok
      rfl
  | cons b rest ih =>
      intro ctx s out hok
      simp only [applyMutations] at hok
      split at hok
      · split at hok
        · cases hok
        · cases hok
          rename_i ha
          have := ih _ _ _ ha
          simpa using this
      · split at hok
        · cases hok
        · cases hok
          rename_i ha
          have := ih _ _ _ ha
          simpa [updateAuditWithStateChanges] using this
      · cases hok

theorem bindAllRegisteredAux_ledgerLegal (iso : String → Option Int) (applyMut : Bool) :
    ∀ (n : Nat) (s : EngineState) (ctx : Context) (consumed : List String) out,
      bindAllRegisteredAux iso applyMut n s ctx consumed = .ok out →
      ledgerLegal s → ledgerLegal out.2.2.1 := by
  intro n
  induction n with
  | zero =>
      intro s ctx consumed out hok h
      simp only [bindAllRegisteredAux] at hok
      cases hok
      exact h
  | succ n ih =>
      intro s ctx consumed out hok h
      simp only [bindAllRegisteredAux] at hok
      rcases hr : sweepRound iso s.symbol_registry s ctx consumed with ⟨bs, s', consumed'⟩
      rw [hr] at hok
      have hs' : ledgerLegal s' := by
        have := sweepRound_ledgerLegal iso s.symbol_registry s ctx consumed h
        rwa [hr] at this
      by_cases hbs : bs.isEmpty
      · rw [if_pos hbs] at hok
        cases hok
        exact hs'
      · rw [if_neg hbs] at hok
        cases applyMut with
        | true =>
            simp only [if_true] at hok
            split at hok
            · cases hok
            · rename_i bs2 ctx' s2 ham
              have hs2 : ledgerLegal s2 := by
                have hle : s2.ledger = s'.ledger :=
                  applyMutations_ledger_eq bs ctx s' (bs2, ctx', s2) ham
                intro t ht
                exact hs' t (hle ▸ ht)
              split at hok
              · cases hok
              · rename_i rounds ctxF sF cF haux
                cases hok
                exact ih s2 ctx' consumed' (rounds, ctxF, sF, cF) haux hs2
        | false =>
            simp only [Bool.false_eq_true, if_false] at hok
            split at hok
            · cases hok
            · rename_i rounds ctxF sF cF haux
              cases hok
              exact ih s' ctx consumed' (rounds, ctxF, sF, cF) haux hs'

/-- C7: constructing a lifecycle `StateTransition` succeeds exactly for the
pairs of the legal table Created→Dormant, Dormant→Activated, Dormant→Expired,
Activated→Archived, Activated→Dormant (anything else fails construction with
an error), and consequently every transition appearing in the engine ledger
after registration, binding or a cascade sweep from a legal ledger is legal. -/
theorem C7_transition_table (iso : String → Option Int) :
    (∀ (id reason : String) (fr tgt : SymbolState),
        (∃ t, mkStateTransition id fr tgt reason = .ok t) ↔
          (fr, tgt) ∈ [(SymbolState.created, SymbolState.dormant),
                      (SymbolState.dormant, SymbolState.activated),
                      (SymbolState.dormant, SymbolState.expired),
                      (SymbolState.activated, SymbolState.archived),
                      (SymbolState.activated, SymbolState.dormant)]) ∧
    (∀ (id reason : String) (fr tgt : SymbolState),
        SymbolStateMachine.validate fr tgt = false →
          mkStateTransition id fr tgt reason = .error "Invalid transition") ∧
    (∀ (s : EngineState) (symbol : LatentSymbol),
        ledgerLegal s → ledgerLegal (register s symbol).2) ∧
    (∀ (s : EngineState) (symbol : LatentSymbol) (context : Context),
        ledgerLegal s → ledgerLegal (bind iso s symbol context).2) ∧
    (∀ (s : EngineState) (context : Context) (n : Nat) (applyMut : Bool) res ctxF sF,
        ledgerLegal s →
        bind_all_registered iso s context n applyMut = .ok (res, ctxF, sF) →
        ledgerLegal sF) := by
  refine ⟨?_, ?_, register_ledgerLegal, bind_ledgerLegal iso, ?_⟩
  · intro id reason fr tgt
    cases fr <;> cases tgt <;>
      simp [mkStateTransition, SymbolStateMachine.validate, SymbolStateMachine.transitionsOf]
  · intro id reason fr tgt hv
    simp [mkStateTransition, hv]
  · intro s context n applyMut res ctxF sF h hok
    unfold bind_all_registered at hok
    rcases haux : bindAllRegisteredAux iso applyMut n s context [] with e | out
    · rw [haux] at hok; cases hok
    · rw [haux] at hok
      obtain ⟨rounds, c2, s2, c3⟩ := out
      cases hok
      exact bindAllRegisteredAux_ledgerLegal iso applyMut n s context [] _ haux h

/-- Witness for C7: the table accepts Dormant→Activated and a freshly built
engine's ledger stays legal through a registration. -/
theorem C7_transition_table_witness :
    (∃ t, mkStateTransition "u" SymbolState.dormant SymbolState.activated "r" = .ok t) ∧
    ledgerLegal (register EngineState.init symWhoGated).2 :=
  ⟨((C7_transition_table isoNone).1 "u" "r" SymbolState.dormant SymbolState.activated).mpr
      (by decide),
   (C7_transition_table isoNone).2.2.1 EngineState.init symWhoGated (by intro t ht; cases ht)⟩

/-! ## C1: registration under a detected cycle -/

/-- A unit declaring itself as its own dependency. -/
def symSelfLoop : LatentSymbol :=
  ⟨"a", "STORY:a", ⟨none, none, none, none⟩, [], [], ["a"], "one_shot"⟩

theorem validateAcyclic_selfLoop :
    validateAcyclic (dictInsert EngineState.init.dependency_graph "a" ["a"]) =
      some ["a", "a"] := by
  simp [validateAcyclic, validateAcyclicGo, dfsFuel, dictKeys, dictInsert, dfsNode,
    dfsNeighbors, graphGet, dictGet?, cycleFrom, EngineState.init, List.find?]

theorem register_selfLoop_eq :
    register EngineState.init symSelfLoop =
      (some ["a", "a"],
       { EngineState.init with
         symbol_registry := [("a", symSelfLoop)]
         dependency_graph := [("a", ["a"])] }) := by
  have hval := validateAcyclic_selfLoop
  simp only [register, symSelfLoop] at hval ⊢
  simp only [EngineState.init, dictInsert] at hval ⊢
  rw [hval]

/-- C1 counterexample: registering a self-dependent unit on a fresh engine
raises `CircularDependencyError` (the cycle path `a → a`), yet the engine
state is *not* left exactly as before the call — the unit's registry entry
and adjacency entry have already been inserted — contradicting the claim
that all visible engine state is unchanged. -/
theorem C1_counterexample :
    (register EngineState.init symSelfLoop).1 = some ["a", "a"] ∧
    (register EngineState.init symSelfLoop).2 ≠ EngineState.init ∧
    (register EngineState.init symSelfLoop).2.symbol_registry = [("a", symSelfLoop)] ∧
    (register EngineState.init symSelfLoop).2.dependency_graph = [("a", ["a"])] := by
  rw [register_selfLoop_eq]
  refine ⟨rfl, ?_, rfl, rfl⟩
  intro hcon
  have := congrArg EngineState.symbol_registry hcon
  simp [EngineState.init] at this

/-- C1 (amended): when the post-insert full-graph cycle re-validation detects
a cycle, `register` raises `CircularDependencyError`; the ledger, the
permanently-satisfied set and the audit trail are unchanged and every *other*
unit's registry and dependency-graph entries are unchanged, but the
offending unit's own registry entry and adjacency entry — inserted before
the validation runs — remain in place rather than being rolled back. -/
theorem C1_register_cycle_mutation (s : EngineState) (symbol : LatentSymbol)
    (cyc : List String) (h : (register s symbol).1 = some cyc) :
    (register s symbol).2.ledger = s.ledger ∧
    (register s symbol).2.activated_symbols = s.activated_symbols ∧
    (register s symbol).2.audit_trail = s.audit_trail ∧
    (register s symbol).2.symbol_registry = dictInsert s.symbol_registry symbol.id symbol ∧
    (register s symbol).2.dependency_graph =
      dictInsert s.dependency_graph symbol.id symbol.depends_on ∧
    (∀ k, k ≠ symbol.id →
        dictGet? (register s symbol).2.symbol_registry k = dictGet? s.symbol_registry k ∧
        dictGet? (register s symbol).2.dependency_graph k = dictGet? s.dependency_graph k) ∧
    ((register s symbol).1.isSome ↔
      (validateAcyclic (dictInsert s.dependency_graph symbol.id symbol.depends_on)).isSome) := by
  cases hv : validateAcyclic (dictInsert s.dependency_graph symbol.id symbol.depends_on) with
  | none => simp [register, hv] at h
  | some c =>
      simp only [register, hv]
      refine ⟨by trivial, by trivial, by trivial, by trivial, by trivial, ?_, by simp⟩
      intro k hk
      exact ⟨dictGet?_dictInsert_ne _ _ _ _ hk, dictGet?_dictInsert_ne _ _ _ _ hk⟩

/-- Witness for the amended C1 at the self-loop registration. -/
theorem C1_register_cycle_mutation_witness :
    (register EngineState.init symSelfLoop).2.ledger = EngineState.init.ledger :=
  (C1_register_cycle_mutation EngineState.init symSelfLoop ["a", "a"]
    (by rw [register_selfLoop_eq])).1

/-! ## C9: symbolic temporal references discard the operator -/

theorem splitOnceColon_after (k : String) : splitOnceColon ("after:" ++ k) = ("after", k) := rfl

theorem splitOnceColon_before (k : String) :
    splitOnceColon ("before:" ++ k) = ("before", k) := rfl

theorem containsColon_after (k : String) : containsColon ("after:" ++ k) = true := rfl

theorem containsColon_before (k : String) : containsColon ("before:" ++ k) = true := rfl

theorem parse_symbolic_after (iso : String → Option Int) (k : String)
    (h : refStartsDigit k = false) :
    TemporalExpression.parse iso ("after:" ++ k) = .ok (.stateTemporal k) := by
  unfold TemporalExpression.parse
  simp [containsColon_after, splitOnceColon_after, h]

theorem parse_symbolic_before (iso : String → Option Int) (k : String)
    (h : refStartsDigit k = false) :
    TemporalExpression.parse iso ("before:" ++ k) = .ok (.stateTemporal k) := by
  unfold TemporalExpression.parse
  simp [containsColon_before, splitOnceColon_before, h]

theorem append_op_ne_empty (op k : String) (hop : op.data ≠ []) : (op ++ k) ≠ "" := by
  intro hcon
  have hd := congrArg String.data hcon
  rw [String.data_append] at hd
  cases ho : op.data with
  | nil => exact hop ho
  | cons c rest =>
      rw [ho] at hd
      simp at hd

/-- C9: in the temporal mini-language a reference that does not begin with a
digit parses to a symbolic state reference that discards the operator:
`after:k` and `before:k` parse to the same `StateTemporal k`, the temporal
checker evaluates both to the truthiness of `context.state[k]` (a missing
key evaluates false via the `None` default), and a symbolic `before:k` can
never produce an `expired` diagnostic. -/
theorem C9_symbolic_reference_discards_operator (iso : String → Option Int)
    (ctx : Context) (k : String) (sym1 sym2 : LatentSymbol)
    (hk : refStartsDigit k = false)
    (h1 : sym1.gate.when = some ("after:" ++ k))
    (h2 : sym2.gate.when = some ("before:" ++ k)) :
    TemporalExpression.parse iso ("after:" ++ k) = .ok (.stateTemporal k) ∧
    TemporalExpression.parse iso ("before:" ++ k) = .ok (.stateTemporal k) ∧
    WhenChecker.matches' iso sym1 ctx = WhenChecker.matches' iso sym2 ctx ∧
    WhenChecker.matches' iso sym1 ctx = ((dictGet? ctx.state k).getD .vNone).truthy ∧
    ExpirationChecker.check iso sym2 ctx = none := by
  have hne1 : (("after:" ++ k) == "") = false := by
    rw [beq_eq_false_iff_ne]
    exact append_op_ne_empty "after:" k (by decide)
  have hne2 : (("before:" ++ k) == "") = false := by
    rw [beq_eq_false_iff_ne]
    exact append_op_ne_empty "before:" k (by decide)
  have hm1 : WhenChecker.matches' iso sym1 ctx = ((dictGet? ctx.state k).getD .vNone).truthy := by
    unfold WhenChecker.matches'
    rw [h1]
    simp only [hne1, Bool.false_eq_true, if_false]
    rw [parse_symbolic_after iso k hk]
    rfl
  have hm2 : WhenChecker.matches' iso sym2 ctx = ((dictGet? ctx.state k).getD .vNone).truthy := by
    unfold WhenChecker.matches'
    rw [h2]
    simp only [hne2, Bool.false_eq_true, if_false]
    rw [parse_symbolic_before iso k hk]
    rfl
  refine ⟨parse_symbolic_after iso k hk, parse_symbolic_before iso k hk,
         hm1.trans hm2.symm, hm1, ?_⟩
  unfold ExpirationChecker.check
  rw [h2]
  simp only [hne2, Bool.false_eq_true, if_false]
  split
  · rfl
  · rw [parse_symbolic_before iso k hk]

/-- A concrete symbolic `after` gate. -/
def symAfterDoor : LatentSymbol :=
  ⟨"t1", "STORY:t", ⟨none, some ("after:" ++ "door"), none, none⟩, [], [], [], "one_shot"⟩

/-- A concrete symbolic `before` gate. -/
def symBeforeDoor : LatentSymbol :=
  ⟨"t2", "STORY:u", ⟨none, some ("before:" ++ "door"), none, none⟩, [], [], [], "one_shot"⟩

/-- Witness for C9 at a concrete symbolic reference. -/
theorem C9_symbolic_reference_discards_operator_witness :
    ExpirationChecker.check isoNone symBeforeDoor ctxAlice = none :=
  (C9_symbolic_reference_discards_operator isoNone ctxAlice "door" symAfterDoor symBeforeDoor
    (by decide) rfl rfl).2.2.2.2

/-! ## C8: the Parallel combinator -/

theorem tryBindList_length (iso : String → Option Int) :
    ∀ (cs : List Comb) (ctx : Context) (s : EngineState) (results : List BindingResult)
      (s' : EngineState), tryBindList iso cs ctx s = .ok (results, s') →
      results.length = cs.length := by
  intro cs
  induction cs with
  | nil =>
      intro ctx s results s' h
      simp only [tryBindList] at h
      cases h
      rfl
  | cons c rest ih =>
      intro ctx s results s' h
      simp only [tryBindList] at h
      split at h
      · cases h
      · split at h
        · cases h
        · cases h
          rename_i hrest
          simp [ih _ _ _ _ hrest]

mutual

theorem tryBind_bound_isSome (iso : String → Option Int) :
    ∀ (c : Comb) (ctx : Context) (s : EngineState) (r : BindingResult) (s' : EngineState),
      tryBind iso c ctx s = .ok (r, s') → r.is_bound = true → r.bound.isSome = true := by
  intro c
  cases c with
  | atom symbol =>
      intro ctx s r s' h hb
      simp only [tryBind] at h
      split at h
      · cases h; rfl
      · cases h; cases hb
  | alternative l rr =>
      intro ctx s r s' h hb
      simp only [tryBind] at h
      split at h
      · cases h
      · rename_i res s1 hl
        split at h
        · cases h
          exact tryBind_bound_isSome iso l ctx s _ _ hl hb
        · exact tryBind_bound_isSome iso rr ctx s1 r s' h hb
  | sequential l rr =>
      intro ctx s r s' h hb
      simp only [tryBind] at h
      split at h
      · cases h
      · rename_i res s1 hl
        split at h
        · cases h
          exact tryBind_bound_isSome iso l ctx s _ _ hl hb
        · exact tryBind_bound_isSome iso rr ctx s1 r s' h hb
  | parallel items =>
      intro ctx s r s' h hb
      simp only [tryBind] at h
      split at h
      · cases h
      · rename_i results s1 hl
        split at h
        · split at h
          · rename_i rr hall hsa
            cases h
            unfold BindingResult.success_all at hsa
            split at hsa
            · cases hsa; rfl
            · cases hsa
          · cases h
        · split at h
          · rename_i hall rr hfind
            cases h
            have := List.find?_some hfind
            simp only [Bool.not_eq_true'] at this
            rw [this] at hb
            cases hb
          · exfalso
            have hnall : ¬ (results.all fun r => r.is_bound) = true := by assumption
            have hfindn : List.find? (fun r => !r.is_bound) results = none := by assumption
            rw [List.find?_eq_none] at hfindn
            apply hnall
            rw [List.all_eq_true]
            intro x hx
            have := hfindn x hx
            simpa using this

theorem tryBindList_bound_isSome (iso : String → Option Int) :
    ∀ (cs : List Comb) (ctx : Context) (s : EngineState) (results : List BindingResult)
      (s' : EngineState), tryBindList iso cs ctx s = .ok (results, s') →
      ∀ r ∈ results, r.is_bound = true → r.bound.isSome = true := by
  intro cs
  cases cs with
  | nil =>
      intro ctx s results s' h
      simp only [tryBindList] at h
      cases h
      intro r hr
      cases hr
  | cons c rest =>
      intro ctx s results s' h
      simp only [tryBindList] at h
      split at h
      · cases h
      · rename_i r1 s1 hc
        split at h
        · cases h
        · rename_i rs s2 hrest
          cases h
          intro r hr hb
          rcases List.mem_cons.mp hr with rfl | hmem
          · exact tryBind_bound_isSome iso c ctx s _ _ hc hb
          · exact tryBindList_bound_isSome iso rest ctx _ _ _ hrest r hmem hb

end

theorem filterMap_length_of_isSome {α β : Type} (f : α → Option β) :
    ∀ (l : List α), (∀ x ∈ l, (f x).isSome = true) → (l.filterMap f).length = l.length := by
  intro l
  induction l with
  | nil => intro _; rfl
  | cons x rest ih =>
      intro h
      have hx := h x (List.mem_cons_self x rest)
      cases hf : f x with
      | none => rw [hf] at hx; cases hx
      | some y =>
          simp only [List.filterMap_cons, hf]
          simp [ih (fun z hz => h z (List.mem_cons_of_mem x hz))]

/-- C8 (amended, for nonempty child lists): evaluating a Parallel node
evaluates every child unconditionally (the results list has one entry per
child and the final engine state is the one threaded through all children);
when every child bound it returns a bound result carrying the full ordered
list of the children's bound symbols; otherwise it returns the first
non-bound child's result in declared order. -/
theorem C8_parallel_behaviour (iso : String → Option Int) (items : List Comb)
    (ctx : Context) (s : EngineState) (results : List BindingResult) (s' : EngineState)
    (hne : items ≠ [])
    (h : tryBindList iso items ctx s = .ok (results, s')) :
    results.length = items.length ∧
    ((∀ r ∈ results, r.is_bound = true) →
      ∃ b bs, results.filterMap (fun r => r.bound) = b :: bs ∧
        (b :: bs).length = items.length ∧
        tryBind iso (.parallel items) ctx s =
          .ok (⟨.bound, (b :: bs).getLast?, some (b :: bs), none⟩, s')) ∧
    (∀ r, results.find? (fun r => !r.is_bound) = some r →
        tryBind iso (.parallel items) ctx s = .ok (r, s')) := by
  have hlen := tryBindList_length iso items ctx s results s' h
  refine ⟨hlen, ?_, ?_⟩
  · intro hall
    have hsome : ∀ r ∈ results, (BindingResult.bound r).isSome = true := fun r hr =>
      tryBindList_bound_isSome iso items ctx s results s' h r hr (hall r hr)
    have hflen : (results.filterMap (fun r => r.bound)).length = results.length :=
      filterMap_length_of_isSome _ results hsome
    have hpos : results.filterMap (fun r => r.bound) ≠ [] := by
      intro hcon
      have h0 : items.length = 0 := by
        rw [← hlen, ← hflen, hcon]
        rfl
      exact hne (List.length_eq_zero.mp h0)
    cases hfm : results.filterMap (fun r => r.bound) with
    | nil => exact absurd hfm hpos
    | cons b bs =>
        refine ⟨b, bs, rfl, ?_, ?_⟩
        · rw [← hfm, hflen, hlen]
        · simp only [tryBind, h]
          have hallb : results.all (fun r => r.is_bound) = true := List.all_eq_true.mpr hall
          rw [hallb]
          simp only [if_true]
          rw [hfm]
          unfold BindingResult.success_all
          cases hgl : (b :: bs).getLast? with
          | none =>
              have hne2 : (b :: bs) ≠ ([] : List BoundSymbol) := by simp
              have := List.getLast?_isSome.mpr hne2
              rw [hgl] at this
              cases this
          | some last =>
              rfl
  · intro r hfind
    simp only [tryBind, h]
    have hnotall : results.all (fun r => r.is_bound) = false := by
      have hmem := List.mem_of_find?_eq_some hfind
      have hprop := List.find?_some hfind
      simp only [Bool.not_eq_true'] at hprop
      rcases hb : results.all (fun r => r.is_bound) with _ | _
      · rfl
      · rw [List.all_eq_true] at hb
        rw [hb r hmem] at hprop
        cases hprop
    rw [hnotall]
    simp only [Bool.false_eq_true, if_false, hfind]

/-- C8 counterexample: evaluating a Parallel node with an *empty* child list
(all children vacuously bound) does not return a bound result carrying the
empty list — `bound_list[-1]` raises `IndexError`, so `try_bind` crashes
instead of returning, refuting the claim for every list of children. -/
theorem C8_counterexample :
    tryBind isoNone (.parallel []) ctxAlice EngineState.init =
      .error "IndexError: list index out of range" := by
  simp [tryBind, tryBindList, BindingResult.success_all]

/-- A unit with no gate at all: it always binds. -/
def symFree : LatentSymbol := ⟨"f1", "STORY:f", ⟨none, none, none, none⟩, [], [], [], "one_shot"⟩

/-- The bound symbol produced by binding `symFree` against `ctxAlice`. -/
def boundFree : BoundSymbol := ⟨"f1", "STORY:f", [], .vInt 1, ctxAlice, none⟩

/-- The engine state after binding `symFree` against `ctxAlice` once. -/
def stateAfterFree : EngineState :=
  ⟨[⟨"f1", .dormant, .activated, "Binding success"⟩], [], ["f1"], [],
   [⟨"f1", ctxAlice, true, some "f1", [], none⟩]⟩

theorem tryBindList_free_eq :
    tryBindList isoNone [.atom symFree] ctxAlice EngineState.init =
      .ok ([BindingResult.success boundFree], stateAfterFree) := by
  have hbind : bind isoNone EngineState.init symFree ctxAlice =
      (some boundFree, stateAfterFree) := by decide
  simp [tryBindList, tryBind, hbind]

/-- Witness for the amended C8 at a singleton child list. -/
theorem C8_parallel_behaviour_witness :
    ([BindingResult.success boundFree] : List BindingResult).length =
      ([Comb.atom symFree] : List Comb).length :=
  (C8_parallel_behaviour isoNone [Comb.atom symFree] ctxAlice EngineState.init
    [BindingResult.success boundFree] stateAfterFree (by simp) tryBindList_free_eq).1

/-! ## C3: the state-driven cascade scenario -/

theorem foldl_update_lastwins :
    ∀ (writes : List (String × Val)) (ctx : Context) (k : String),
      dictGet? (writes.foldl (fun c p => c.with_state_update p.1 p.2) ctx).state k =
        (match (writes.filter (fun p => p.1 == k)).getLast? with
         | some p => some p.2
         | none => dictGet? ctx.state k) := by
  intro writes
  induction writes with
  | nil => intro ctx k; rfl
  | cons p rest ih =>
      intro ctx k
      obtain ⟨k1, v1⟩ := p
      simp only [List.foldl_cons]
      rw [ih]
      by_cases hk : k1 = k
      · subst hk
        simp only [List.filter_cons, beq_self_eq_true, if_true]
        cases hfl : rest.filter (fun p => p.1 == k1) with
        | nil => simp [Context.with_state_update, dictGet?_dictInsert_self]
        | cons q qs =>
            rw [List.getLast?_cons_cons]
            cases hgl : (q :: qs).getLast? with
            | some p => rfl
            | none =>
                have hp : (q :: qs).getLast?.isSome = true := List.getLast?_isSome.mpr (by simp)
                rw [hgl] at hp
                cases hp
      · have hne : (k1 == k) = false := by simp [hk]
        simp only [List.filter_cons, hne, Bool.false_eq_true, if_false]
        cases hfl : (rest.filter (fun p => p.1 == k)).getLast? with
        | some q => rfl
        | none =>
            simp only [Context.with_state_update]
            exact dictGet?_dictInsert_ne _ _ _ _ (fun hh => hk hh.symm)

/-- Unit P: payload sets `state.hasKey = true`, gated only on the actor. -/
def symP : LatentSymbol :=
  ⟨"P", "STORY:p", ⟨some ["alice"], none, none, none⟩,
   [("state_mutation", .vDict (.cons "hasKey" (.vBool true) .nil))], [], [], "one_shot"⟩

/-- Unit Q: gated on `state.hasKey = true`. -/
def symQ : LatentSymbol :=
  ⟨"Q", "STORY:q", ⟨none, none, none, some [("hasKey", .vBool true)]⟩, [], [], [], "one_shot"⟩

/-- The sweep's starting context with `hasKey = false`. -/
def ctxPQ : Context := ⟨some "alice", 0, "here", [("hasKey", .vBool false)]⟩

/-- The context after P's mutation: `hasKey = true`. -/
def ctxHasKey : Context := ⟨some "alice", 0, "here", [("hasKey", .vBool true)]⟩

/-- Engine state after registering P then Q. -/
def enginePQ : EngineState :=
  ⟨[⟨"P", .created, .dormant, "Registered"⟩, ⟨"Q", .created, .dormant, "Registered"⟩],
   [("P", symP), ("Q", symQ)], [], [("P", []), ("Q", [])], []⟩

/-- P's bound result, carrying the applied change hasKey: false → true. -/
def boundP : BoundSymbol :=
  ⟨"P", "STORY:p", [("state_mutation", .vDict (.cons "hasKey" (.vBool true) .nil))],
   .vInt 1, ctxPQ, some [⟨"hasKey", .vBool false, .vBool true⟩]⟩

/-- Q's bound result (bound in the second round against the evolved context). -/
def boundQ : BoundSymbol := ⟨"Q", "STORY:q", [], .vInt 1, ctxHasKey, none⟩

/-- Engine state at the end of the P/Q sweep. -/
def engineSweptPQ : EngineState :=
  ⟨[⟨"P", .created, .dormant, "Registered"⟩, ⟨"Q", .created, .dormant, "Registered"⟩,
    ⟨"P", .dormant, .activated, "Binding success"⟩,
    ⟨"Q", .dormant, .activated, "Binding success"⟩],
   [("P", symP), ("Q", symQ)], ["P", "Q"], [("P", []), ("Q", [])],
   [⟨"P", ctxPQ, true, some "P", [], some [⟨"hasKey", .vBool false, .vBool true⟩]⟩,
    ⟨"Q", ctxHasKey, true, some "Q", [], none⟩]⟩

theorem register_success_eq (s : EngineState) (symbol : LatentSymbol)
    (h : validateAcyclic (dictInsert s.dependency_graph symbol.id symbol.depends_on) = none) :
    register s symbol =
      (none,
       { s with
         ledger := s.ledger ++ [⟨symbol.id, .created, .dormant, "Registered"⟩]
         symbol_registry := dictInsert s.symbol_registry symbol.id symbol
         dependency_graph := dictInsert s.dependency_graph symbol.id symbol.depends_on }) := by
  simp only [register, h]

theorem register_PQ_eq :
    (register EngineState.init symP).1 = none ∧
    (register (register EngineState.init symP).2 symQ).1 = none ∧
    (register (register EngineState.init symP).2 symQ).2 = enginePQ := by
  have hv1 : validateAcyclic (dictInsert EngineState.init.dependency_graph symP.id
      symP.depends_on) = none := by
    simp [validateAcyclic, validateAcyclicGo, dfsFuel, dictKeys, dictInsert, dfsNode,
      dfsNeighbors, graphGet, dictGet?, EngineState.init, symP, List.find?]
  rw [register_success_eq _ _ hv1]
  have hv2 : validateAcyclic (dictInsert
      ({ EngineState.init with
         ledger := EngineState.init.ledger ++ [⟨symP.id, .created, .dormant, "Registered"⟩]
         symbol_registry := dictInsert EngineState.init.symbol_registry symP.id symP
         dependency_graph :=
           dictInsert EngineState.init.dependency_graph symP.id symP.depends_on
       } : EngineState).dependency_graph symQ.id symQ.depends_on) = none := by
    simp [validateAcyclic, validateAcyclicGo, dfsFuel, dictKeys, dictInsert, dfsNode,
      dfsNeighbors, graphGet, dictGet?, EngineState.init, symP, symQ, List.find?]
  rw [register_success_eq _ _ hv2]
  refine ⟨rfl, rfl, ?_⟩
  decide

/-- C3: sweeping registered P (sets hasKey) and Q (requires hasKey) from
state `{hasKey: false}` binds P in round one and Q in round two, returns the
final context with `hasKey = true`, records P's applied change
(key hasKey, old false, new true) on P's BoundResult and on P's audit
attempt, and Q's snapshot shows the evolved state; in general, round
mutations are applied through `with_state_update` in write order with
last-write-wins per key. -/
theorem C3_state_driven_cascade :
    ((register EngineState.init symP).1 = none ∧
     (register (register EngineState.init symP).2 symQ).1 = none ∧
     (register (register EngineState.init symP).2 symQ).2 = enginePQ) ∧
    bind_all_registered isoNone enginePQ ctxPQ 10 true =
      .ok ([boundP, boundQ], ctxHasKey, engineSweptPQ) ∧
    [boundP, boundQ].map (fun b => b.symbol_id) = ["P", "Q"] ∧
    dictGet? ctxHasKey.state "hasKey" = some (.vBool true) ∧
    boundP.state_changes_applied = some [⟨"hasKey", .vBool false, .vBool true⟩] ∧
    (∃ a ∈ engineSweptPQ.audit_trail, a.symbol_id = "P" ∧ a.success = true ∧
       a.state_changes_applied = some [⟨"hasKey", .vBool false, .vBool true⟩]) ∧
    (∀ (writes : List (String × Val)) (ctx : Context) (k : String),
       dictGet? (writes.foldl (fun c p => c.with_state_update p.1 p.2) ctx).state k =
         (match (writes.filter (fun p => p.1 == k)).getLast? with
          | some p => some p.2
          | none => dictGet? ctx.state k)) :=
  ⟨register_PQ_eq, by decide, by decide, by decide, by decide, by decide,
   fun writes ctx k => foldl_update_lastwins writes ctx k⟩

/-! ## Scheduler infrastructure: well-formedness and counting lemmas -/

/-- A payload whose `state_mutation` entry, when present, is a dict (the
invariant the validated-unit boundary guarantees; a non-dict value would
raise `AttributeError` in the mutation pass). -/
def payloadWF (payload : Dict Val) : Bool :=
  match dictGet? payload "state_mutation" with
  | none => true
  | some (.vDict _) => true
  | some _ => false

/-- Registry invariants maintained by `register` (a Python dict keyed by
`symbol.id`): unique keys, each key equal to its symbol's id, and
well-formed payloads. -/
def engineWF (s : EngineState) : Bool :=
  decide (dictKeys s.symbol_registry).Nodup &&
  s.symbol_registry.all (fun p => p.2.id == p.1) &&
  s.symbol_registry.all (fun p => payloadWF p.2.payload)

/-- Occurrences of `id` among the bound symbols of a result list. -/
def countById (bs : List BoundSymbol) (id : String) : Nat :=
  (bs.filter (fun b => b.symbol_id == id)).length

/-- Attempts recorded for `id` in an audit trail. -/
def countAttempts (trail : List BindingAttempt) (id : String) : Nat :=
  (trail.filter (fun a => a.symbol_id == id)).length

/-- Occurrences of key `id` in an association list. -/
def keyCount {α : Type} (l : Dict α) (id : String) : Nat :=
  (l.filter (fun p => p.1 == id)).length

theorem bind_registry_eq (iso : String → Option Int) (s : EngineState)
    (symbol : LatentSymbol) (context : Context) :
    (bind iso s symbol context).2.symbol_registry = s.symbol_registry := by
  by_cases hc : collectFailureReasons iso s.activated_symbols symbol context = []
  · rw [bind_success_eq iso s symbol context hc]
  · rw [bind_failure_eq iso s symbol context hc]

theorem bind_fst_isSome_of_prefilter (iso : String → Option Int) (s : EngineState)
    (symbol : LatentSymbol) (context : Context)
    (h : prefilter iso s.activated_symbols symbol context = true) :
    (bind iso s symbol context).1.isSome = true := by
  have hc := (prefilter_iff_no_failure iso s.activated_symbols symbol context).mp h
  rw [bind_success_eq iso s symbol context hc]
  rfl

theorem bind_some_parts (iso : String → Option Int) (s : EngineState)
    (symbol : LatentSymbol) (context : Context) (b : BoundSymbol) (s' : EngineState)
    (h : bind iso s symbol context = (some b, s')) :
    b.symbol_id = symbol.id ∧ b.effect = symbol.payload ∧
    (∀ id, countAttempts s'.audit_trail id =
      countAttempts s.audit_trail id + (if symbol.id == id then 1 else 0)) := by
  by_cases hc : collectFailureReasons iso s.activated_symbols symbol context = []
  · rw [bind_success_eq iso s symbol context hc] at h
    injection h with h1 h2
    injection h1 with h1
    subst h1
    subst h2
    refine ⟨rfl, rfl, ?_⟩
    intro id
    unfold countAttempts
    simp only [List.filter_append]
    by_cases hid : symbol.id = id
    · simp [hid]
    · simp [List.filter_cons, hid]
  · rw [bind_failure_eq iso s symbol context hc] at h
    injection h with h1 h2
    cases h1

theorem bind_none_attempt_count (iso : String → Option Int) (s : EngineState)
    (symbol : LatentSymbol) (context : Context) (s' : EngineState)
    (h : bind iso s symbol context = (none, s')) :
    ∀ id, countAttempts s'.audit_trail id =
      countAttempts s.audit_trail id + (if symbol.id == id then 1 else 0) := by
  by_cases hc : collectFailureReasons iso s.activated_symbols symbol context = []
  · rw [bind_success_eq iso s symbol context hc] at h
    injection h with h1 h2
    cases h1
  · rw [bind_failure_eq iso s symbol context hc] at h
    injection h with h1 h2
    subst h2
    intro id
    unfold countAttempts
    simp only [List.filter_append]
    by_cases hid : symbol.id = id
    · simp [hid]
    · simp [List.filter_cons, hid]

theorem replaceFirstSuccess_count (sid : String) (cs : List StateChange) :
    ∀ (l : List BindingAttempt) (id : String),
      countAttempts (replaceFirstSuccess sid cs l) id = countAttempts l id := by
  intro l
  induction l with
  | nil => intro id; rfl
  | cons a rest ih =>
      intro id
      unfold replaceFirstSuccess
      by_cases hcond : (a.symbol_id == sid && a.success) = true
      · rw [if_pos hcond]
        unfold countAttempts
        simp only [List.filter_cons]
        by_cases hid : (a.symbol_id == id) = true
        · simp [hid]
        · simp [hid]
      · rw [if_neg hcond]
        unfold countAttempts
        simp only [List.filter_cons]
        by_cases hid : (a.symbol_id == id) = true
        · simp only [hid, if_true]
          have := ih id
          unfold countAttempts at this
          simp [this]
        · simp only [hid, Bool.false_eq_true, if_false]
          exact ih id

theorem updateAudit_count (s : EngineState) (sid : String) (cs : List StateChange) (id : String) :
    countAttempts (updateAuditWithStateChanges s sid cs).audit_trail id =
      countAttempts s.audit_trail id := by
  unfold updateAuditWithStateChanges
  unfold countAttempts
  rw [List.filter_reverse, List.length_reverse]
  have h1 := replaceFirstSuccess_count sid cs s.audit_trail.reverse id
  unfold countAttempts at h1
  rw [h1, List.filter_reverse, List.length_reverse]

theorem applyMutations_spec :
    ∀ (bs : List BoundSymbol) (ctx : Context) (s : EngineState),
      (∀ b ∈ bs, payloadWF b.effect = true) →
      ∃ bs' ctx' s', applyMutations bs ctx s = .ok (bs', ctx', s') ∧
        bs'.map (fun b => b.symbol_id) = bs.map (fun b => b.symbol_id) ∧
        s'.symbol_registry = s.symbol_registry ∧
        (∀ id, countAttempts s'.audit_trail id = countAttempts s.audit_trail id) := by
  intro bs
  induction bs with
  | nil => intro ctx s _; exact ⟨[], ctx, s, rfl, rfl, rfl, fun _ => rfl⟩
  | cons b rest ih =>
      intro ctx s h
      have hb := h b (List.mem_cons_self b rest)
      unfold payloadWF at hb
      cases hm : dictGet? b.effect "state_mutation" with
      | none =>
          obtain ⟨bs', ctx', s', hok, hids, hreg, hcnt⟩ :=
            ih ctx s (fun x hx => h x (List.mem_cons_of_mem b hx))
          refine ⟨b :: bs', ctx', s', ?_, ?_, hreg, hcnt⟩
          · simp only [applyMutations, hm, hok]
          · simp [hids]
      | some v =>
          rw [hm] at hb
          cases v with
          | vDict m =>
              rcases hmp : applyMutationPairs m.toList ctx with ⟨changes, ctx2⟩
              obtain ⟨bs', ctx', s', hok, hids, hreg, hcnt⟩ :=
                ih ctx2 (updateAuditWithStateChanges s b.symbol_id changes)
                  (fun x hx => h x (List.mem_cons_of_mem b hx))
              refine ⟨{ b with state_changes_applied := some changes } :: bs', ctx', s',
                      ?_, ?_, ?_, ?_⟩
              · simp only [applyMutations, hm, hmp, hok]
              · simp [hids]
              · rw [hreg]
                rfl
              · intro id
                rw [hcnt id, updateAudit_count]
          | vNone => simp at hb
          | vBool b2 => simp at hb
          | vInt n2 => simp at hb
          | vStr s2 => simp at hb
          | vList l2 => simp at hb

theorem applyMutations_ok_parts :
    ∀ (bs : List BoundSymbol) (ctx : Context) (s : EngineState) (bs' : List BoundSymbol)
      (ctx' : Context) (s' : EngineState),
      applyMutations bs ctx s = .ok (bs', ctx', s') →
      bs'.map (fun b => b.symbol_id) = bs.map (fun b => b.symbol_id) ∧
      s'.symbol_registry = s.symbol_registry ∧
      (∀ id, countAttempts s'.audit_trail id = countAttempts s.audit_trail id) := by
  intro bs
  induction bs with
  | nil =>
      intro ctx s bs' ctx' s' hok
      simp only [applyMutations] at hok
      cases hok
      exact ⟨rfl, rfl, fun _ => rfl⟩
  | cons b rest ih =>
      intro ctx s bs' ctx' s' hok
      simp only [applyMutations] at hok
      split at hok
      · split at hok
        · cases hok
        · cases hok
          rename_i ha
          obtain ⟨hids, hreg, hcnt⟩ := ih _ _ _ _ _ ha
          exact ⟨by simp [hids], hreg, hcnt⟩
      · split at hok
        · cases hok
        · cases hok
          rename_i ha
          obtain ⟨hids, hreg, hcnt⟩ := ih _ _ _ _ _ ha
          refine ⟨by simp [hids], by rw [hreg]; rfl, ?_⟩
          intro id
          rw [hcnt id, updateAudit_count]
      · cases hok

theorem sweepRound_spec (iso : String → Option Int) :
    ∀ (l : List (String × LatentSymbol)) (s : EngineState) (ctx : Context)
      (consumed : List String),
      (∀ p ∈ l, p.2.id = p.1) → (∀ p ∈ l, payloadWF p.2.payload = true) →
      (sweepRound iso l s ctx consumed).2.1.symbol_registry = s.symbol_registry ∧
      List.Sublist ((sweepRound iso l s ctx consumed).1.map (fun b => b.symbol_id))
        (l.map (fun p => p.1)) ∧
      (∀ b ∈ (sweepRound iso l s ctx consumed).1, payloadWF b.effect = true) := by
  intro l
  induction l with
  | nil =>
      intro s ctx consumed _ _
      exact ⟨rfl, by simp [sweepRound], by intro b hb; simp [sweepRound] at hb⟩
  | cons p rest ih =>
      intro s ctx consumed hid hwf
      obtain ⟨sym_id, symbol⟩ := p
      have htl1 : ∀ q ∈ rest, q.2.id = q.1 := fun q hq => hid q (List.mem_cons_of_mem _ hq)
      have htl2 : ∀ q ∈ rest, payloadWF q.2.payload = true := fun q hq =>
        hwf q (List.mem_cons_of_mem _ hq)
      by_cases h1 : sym_id ∈ consumed
      · obtain ⟨hr, hsub, hwfb⟩ := ih s ctx consumed htl1 htl2
        refine ⟨?_, ?_, ?_⟩
        · simpa [sweepRound, h1] using hr
        · have := List.Sublist.cons sym_id hsub
          simpa [sweepRound, h1] using this
        · simpa [sweepRound, h1] using hwfb
      · by_cases h2 : prefilter iso s.activated_symbols symbol ctx = true
        · have hsome := bind_fst_isSome_of_prefilter iso s symbol ctx h2
          rcases hb : bind iso s symbol ctx with ⟨ob, s2⟩
          cases ob with
          | none =>
              rw [hb] at hsome
              simp at hsome
          | some b =>
              obtain ⟨hbid, hbeff, _⟩ := bind_some_parts iso s symbol ctx b s2 hb
              have hr2 : s2.symbol_registry = s.symbol_registry := by
                have := bind_registry_eq iso s symbol ctx
                rwa [hb] at this
              obtain ⟨hr, hsub, hwfb⟩ := ih s2 ctx
                (if symbol.consumption == "one_shot" then setAdd consumed sym_id else consumed)
                htl1 htl2
              have hid0 : symbol.id = sym_id := hid (sym_id, symbol) (List.mem_cons_self _ _)
              refine ⟨?_, ?_, ?_⟩
              · simpa [sweepRound, hb, h1, h2] using hr.trans hr2
              · have hstep : List.Sublist
                    (b.symbol_id :: ((sweepRound iso rest s2 ctx
                      (if symbol.consumption == "one_shot" then setAdd consumed sym_id
                       else consumed)).1.map (fun x => x.symbol_id)))
                    (sym_id :: rest.map (fun p => p.1)) := by
                  rw [hbid, hid0]
                  exact List.Sublist.cons₂ sym_id hsub
                simpa [sweepRound, hb, h1, h2] using hstep
              · have hall : ∀ x ∈ b :: (sweepRound iso rest s2 ctx
                    (if symbol.consumption == "one_shot" then setAdd consumed sym_id
                     else consumed)).1, payloadWF x.effect = true := by
                  intro x hx
                  rcases List.mem_cons.mp hx with rfl | hx
                  · rw [hbeff]
                    exact hwf (sym_id, symbol) (List.mem_cons_self _ _)
                  · exact hwfb x hx
                intro x hx
                refine hall x ?_
                revert hx
                simp [sweepRound, hb, h1, h2]
        · obtain ⟨hr, hsub, hwfb⟩ := ih s ctx consumed htl1 htl2
          refine ⟨?_, ?_, ?_⟩
          · simpa [sweepRound, h1, h2] using hr
          · have := List.Sublist.cons sym_id hsub
            simpa [sweepRound, h1, h2] using this
          · simpa [sweepRound, h1, h2] using hwfb

theorem sweepRound_empty_eq (iso : String → Option Int) :
    ∀ (l : List (String × LatentSymbol)) (s : EngineState) (ctx : Context)
      (consumed : List String),
      (sweepRound iso l s ctx consumed).1 = [] →
      sweepRound iso l s ctx consumed = ([], s, consumed) := by
  intro l
  induction l with
  | nil => intro s ctx consumed _; rfl
  | cons p rest ih =>
      intro s ctx consumed hnil
      obtain ⟨sym_id, symbol⟩ := p
      by_cases h1 : sym_id ∈ consumed
      · rw [show sweepRound iso ((sym_id, symbol) :: rest) s ctx consumed =
              sweepRound iso rest s ctx consumed from by simp [sweepRound, h1]] at hnil ⊢
        exact ih s ctx consumed hnil
      · by_cases h2 : prefilter iso s.activated_symbols symbol ctx = true
        · have hsome := bind_fst_isSome_of_prefilter iso s symbol ctx h2
          rcases hb : bind iso s symbol ctx with ⟨ob, s2⟩
          cases ob with
          | none =>
              rw [hb] at hsome
              simp at hsome
          | some b =>
              exfalso
              have hcons : (sweepRound iso ((sym_id, symbol) :: rest) s ctx consumed).1 =
                  b :: (sweepRound iso rest s2 ctx
                    (if symbol.consumption == "one_shot" then setAdd consumed sym_id
                     else consumed)).1 := by
                simp [sweepRound, hb, h1, h2]
              rw [hcons] at hnil
              cases hnil
        · rw [show sweepRound iso ((sym_id, symbol) :: rest) s ctx consumed =
                sweepRound iso rest s ctx consumed from by simp [sweepRound, h1, h2]] at hnil ⊢
          exact ih s ctx consumed hnil

theorem bindAllRegisteredAux_spec (iso : String → Option Int) (applyMut : Bool) :
    ∀ (n : Nat) (s : EngineState) (ctx : Context) (consumed : List String),
      (∀ p ∈ s.symbol_registry, p.2.id = p.1) →
      (∀ p ∈ s.symbol_registry, payloadWF p.2.payload = true) →
      ∃ rounds ctxF sF cF,
        bindAllRegisteredAux iso applyMut n s ctx consumed = .ok (rounds, ctxF, sF, cF) ∧
        rounds.length ≤ n ∧
        (∀ rl ∈ rounds, rl ≠ []) ∧
        (∀ rl ∈ rounds, List.Sublist (rl.map (fun b => b.symbol_id))
          (dictKeys s.symbol_registry)) ∧
        sF.symbol_registry = s.symbol_registry ∧
        (rounds.length < n → sweepRound iso sF.symbol_registry sF ctxF cF = ([], sF, cF)) := by
  intro n
  induction n with
  | zero =>
      intro s ctx consumed hid hwf
      refine ⟨[], ctx, s, consumed, rfl, Nat.le_refl 0, by simp, by simp, rfl, ?_⟩
      intro h
      cases h
  | succ n ih =>
      intro s ctx consumed hid hwf
      obtain ⟨hregR, hsubR, hwfR⟩ := sweepRound_spec iso s.symbol_registry s ctx consumed hid hwf
      rcases hr : sweepRound iso s.symbol_registry s ctx consumed with ⟨bs, s', consumed'⟩
      rw [hr] at hregR hsubR hwfR
      have hregR' : s'.symbol_registry = s.symbol_registry := hregR
      by_cases hbs : bs = []
      · have hempty := sweepRound_empty_eq iso s.symbol_registry s ctx consumed
          (by rw [hr, hbs])
        rw [hr] at hempty
        injection hempty with he1 hrest
        injection hrest with he2 he3
        subst he2
        subst he3
        refine ⟨[], ctx, s', consumed', ?_, by simp, by simp, by simp, rfl, ?_⟩
        · simp [bindAllRegisteredAux, hr, hbs]
        · intro _
          rw [hr, hbs]
      · have hid' : ∀ p ∈ s'.symbol_registry, p.2.id = p.1 := by
          rw [hregR']; exact hid
        have hwf' : ∀ p ∈ s'.symbol_registry, payloadWF p.2.payload = true := by
          rw [hregR']; exact hwf
        cases applyMut with
        | false =>
            obtain ⟨rounds, ctxF, sF, cF, hokR, hlen, hne, hsubs, hreg, hfix⟩ :=
              ih s' ctx consumed' hid' hwf'
            refine ⟨bs :: rounds, ctxF, sF, cF, ?_, Nat.succ_le_succ hlen, ?_, ?_,
                   hreg.trans hregR', ?_⟩
            · have hbsne : bs.isEmpty = false := by
                cases hb2 : bs with
                | nil => exact absurd hb2 hbs
                | cons x xs => rfl
              simp [bindAllRegisteredAux, hr, hbsne, hokR]
            · intro rl hrl
              rcases List.mem_cons.mp hrl with rfl | hrl
              · exact hbs
              · exact hne rl hrl
            · intro rl hrl
              rcases List.mem_cons.mp hrl with rfl | hrl
              · exact hsubR
              · have := hsubs rl hrl
                rwa [hregR'] at this
            · intro hlt
              exact hfix (by simpa using Nat.lt_of_succ_lt_succ hlt)
        | true =>
            obtain ⟨bs2, ctx2, s2, hA, hids, hregA, _⟩ := applyMutations_spec bs ctx s' hwfR
            have hid2 : ∀ p ∈ s2.symbol_registry, p.2.id = p.1 := by
              rw [hregA]; exact hid'
            have hwf2 : ∀ p ∈ s2.symbol_registry, payloadWF p.2.payload = true := by
              rw [hregA]; exact hwf'
            obtain ⟨rounds, ctxF, sF, cF, hokR, hlen, hne, hsubs, hreg, hfix⟩ :=
              ih s2 ctx2 consumed' hid2 hwf2
            refine ⟨bs2 :: rounds, ctxF, sF, cF, ?_, Nat.succ_le_succ hlen, ?_, ?_,
                   (hreg.trans hregA).trans hregR', ?_⟩
            · have hbsne : bs.isEmpty = false := by
                cases hb2 : bs with
                | nil => exact absurd hb2 hbs
                | cons x xs => rfl
              simp [bindAllRegisteredAux, hr, hbsne, hA, hokR]
            · intro rl hrl
              rcases List.mem_cons.mp hrl with rfl | hrl
              · intro hcon
                rw [hcon] at hids
                cases hmap : bs.map (fun b => b.symbol_id) with
                | nil => exact hbs (List.map_eq_nil_iff.mp hmap)
                | cons x xs => rw [hmap] at hids; cases hids
              · exact hne rl hrl
            · intro rl hrl
              rcases List.mem_cons.mp hrl with rfl | hrl
              · rw [hids]
                exact hsubR
              · have := hsubs rl hrl
                rwa [hregA, hregR'] at this
            · intro hlt
              exact hfix (by simpa using Nat.lt_of_succ_lt_succ hlt)

theorem setAdd_mem (l : List String) (x a : String) :
    a ∈ setAdd l x ↔ (a ∈ l ∨ a = x) := by
  unfold setAdd
  by_cases hx : l.contains x
  · have hx' : x ∈ l := by simpa using hx
    simp only [hx, if_true]
    constructor
    · exact Or.inl
    · rintro (h | rfl)
      · exact h
      · exact hx'
  · have hx2 : l.contains x = false := by
      cases hc : l.contains x
      · rfl
      · exact absurd hc hx
    simp only [hx2, Bool.false_eq_true, if_false]
    simp [List.mem_append]

theorem countById_append (a b : List BoundSymbol) (id : String) :
    countById (a ++ b) id = countById a id + countById b id := by
  unfold countById
  rw [List.filter_append, List.length_append]

theorem countById_cons (x : BoundSymbol) (rest : List BoundSymbol) (id : String) :
    countById (x :: rest) id =
      (if x.symbol_id = id then 1 else 0) + countById rest id := by
  unfold countById
  by_cases hx : x.symbol_id = id
  · simp [List.filter_cons, hx, Nat.add_comm]
  · simp [List.filter_cons, hx]

theorem countById_eq_of_map_eq (a b : List BoundSymbol) (id : String)
    (h : a.map (fun x => x.symbol_id) = b.map (fun x => x.symbol_id)) :
    countById a id = countById b id := by
  unfold countById
  rw [← List.countP_eq_length_filter, ← List.countP_eq_length_filter]
  have ha : a.countP (fun x => x.symbol_id == id) =
      (a.map (fun x => x.symbol_id)).countP (fun y => y == id) := by
    rw [List.countP_map]
    rfl
  have hb : b.countP (fun x => x.symbol_id == id) =
      (b.map (fun x => x.symbol_id)).countP (fun y => y == id) := by
    rw [List.countP_map]
    rfl
  rw [ha, hb, h]

theorem keyCount_cons {α : Type} (k : String) (v : α) (rest : Dict α) (id : String) :
    keyCount ((k, v) :: rest) id =
      (if k = id then 1 else 0) + keyCount rest id := by
  unfold keyCount
  by_cases hk : k = id
  · simp [List.filter_cons, hk, Nat.add_comm]
  · simp [List.filter_cons, hk]

theorem keyCount_le_one_of_nodup {α : Type} :
    ∀ (l : Dict α), (dictKeys l).Nodup → ∀ id, keyCount l id ≤ 1 := by
  intro l
  induction l with
  | nil => intro _ id; exact Nat.zero_le 1
  | cons p rest ih =>
      intro hnd id
      obtain ⟨k, v⟩ := p
      simp only [dictKeys, List.map_cons, List.nodup_cons] at hnd
      obtain ⟨hk, hnd'⟩ := hnd
      rw [keyCount_cons]
      by_cases hkid : k = id
      · subst hkid
        have hzero : keyCount rest k = 0 := by
          unfold keyCount
          rw [List.length_eq_zero]
          rw [List.filter_eq_nil_iff]
          intro p hp
          intro hcon
          apply hk
          rw [← (by simpa using hcon : p.1 = k)]
          exact List.mem_map_of_mem (fun q => q.1) hp
        simp [hzero]
      · simp only [hkid, if_false]
        simpa using ih (by simpa [dictKeys] using hnd') id

theorem dictGet?_of_mem_nodup {α : Type} :
    ∀ (l : Dict α), (dictKeys l).Nodup → ∀ (k : String) (v : α), (k, v) ∈ l →
      dictGet? l k = some v := by
  intro l
  induction l with
  | nil => intro _ k v hm; cases hm
  | cons p rest ih =>
      intro hnd k v hm
      obtain ⟨k1, v1⟩ := p
      simp only [dictKeys, List.map_cons, List.nodup_cons] at hnd
      obtain ⟨hk, hnd'⟩ := hnd
      rcases List.mem_cons.mp hm with heq | hm2
      · injection heq with he1 he2
        subst he1
        subst he2
        unfold dictGet?
        rw [List.find?_cons_of_pos _ (by simp)]
        rfl
      · have hkne : k1 ≠ k := by
          intro hcon
          subst hcon
          apply hk
          have : (k1, v) ∈ rest := hm2
          simpa [dictKeys] using List.mem_map_of_mem (fun q => q.1) this
        unfold dictGet?
        rw [List.find?_cons_of_neg _ (by simp [hkne])]
        have := ih (by simpa [dictKeys] using hnd') k v hm2
        unfold dictGet? at this
        exact this

theorem sweepRound_count (iso : String → Option Int) (id : String) :
    ∀ (l : List (String × LatentSymbol)) (s : EngineState) (ctx : Context)
      (consumed : List String),
      (∀ p ∈ l, p.2.id = p.1) →
      (∀ p ∈ l, p.1 = id → p.2.consumption = "one_shot") →
      countById (sweepRound iso l s ctx consumed).1 id ≤ keyCount l id ∧
      countAttempts (sweepRound iso l s ctx consumed).2.1.audit_trail id =
        countAttempts s.audit_trail id + countById (sweepRound iso l s ctx consumed).1 id ∧
      (id ∈ consumed → countById (sweepRound iso l s ctx consumed).1 id = 0) ∧
      (id ∈ (sweepRound iso l s ctx consumed).2.2 ↔
        (id ∈ consumed ∨ 1 ≤ countById (sweepRound iso l s ctx consumed).1 id)) := by
  intro l
  induction l with
  | nil =>
      intro s ctx consumed _ _
      refine ⟨?_, ?_, ?_, ?_⟩ <;> simp [sweepRound, countById, keyCount]
  | cons p rest ih =>
      intro s ctx consumed hid hone
      obtain ⟨sym_id, symbol⟩ := p
      have htlid : ∀ q ∈ rest, q.2.id = q.1 := fun q hq => hid q (List.mem_cons_of_mem _ hq)
      have htlone : ∀ q ∈ rest, q.1 = id → q.2.consumption = "one_shot" := fun q hq =>
        hone q (List.mem_cons_of_mem _ hq)
      by_cases h1 : sym_id ∈ consumed
      · have hred : sweepRound iso ((sym_id, symbol) :: rest) s ctx consumed =
            sweepRound iso rest s ctx consumed := by simp [sweepRound, h1]
        rw [hred, keyCount_cons]
        obtain ⟨A, B, C, D⟩ := ih s ctx consumed htlid htlone
        exact ⟨A.trans (Nat.le_add_left _ _), B, C, D⟩
      · by_cases h2 : prefilter iso s.activated_symbols symbol ctx = true
        · have hsome := bind_fst_isSome_of_prefilter iso s symbol ctx h2
          rcases hb : bind iso s symbol ctx with ⟨ob, s2⟩
          cases ob with
          | none =>
              rw [hb] at hsome
              simp at hsome
          | some b =>
              obtain ⟨hbid, _, hcnt⟩ := bind_some_parts iso s symbol ctx b s2 hb
              have hkey : symbol.id = sym_id := hid (sym_id, symbol) (List.mem_cons_self _ _)
              have hred : sweepRound iso ((sym_id, symbol) :: rest) s ctx consumed =
                  (b :: (sweepRound iso rest s2 ctx
                    (if symbol.consumption == "one_shot" then setAdd consumed sym_id
                     else consumed)).1,
                   (sweepRound iso rest s2 ctx
                    (if symbol.consumption == "one_shot" then setAdd consumed sym_id
                     else consumed)).2) := by
                simp [sweepRound, hb, h1, h2]
              obtain ⟨A, B, C, D⟩ := ih s2 ctx
                (if symbol.consumption == "one_shot" then setAdd consumed sym_id else consumed)
                htlid htlone
              rw [hred, keyCount_cons, countById_cons]
              rw [hbid, hkey]
              by_cases hkid : sym_id = id
              · subst hkid
                have hos : symbol.consumption = "one_shot" :=
                  hone (sym_id, symbol) (List.mem_cons_self _ _) rfl
                have hc2 : (if symbol.consumption == "one_shot" then setAdd consumed sym_id
                    else consumed) = setAdd consumed sym_id := by simp [hos]
                rw [hc2] at A B C D
                have hmem2 : sym_id ∈ setAdd consumed sym_id := (setAdd_mem _ _ _).mpr (Or.inr rfl)
                have hzero : countById (sweepRound iso rest s2 ctx
                    (setAdd consumed sym_id)).1 sym_id = 0 := C hmem2
                have hcnt1 : countAttempts s2.audit_trail sym_id =
                    countAttempts s.audit_trail sym_id + 1 := by
                  have := hcnt sym_id
                  rwa [hkey, if_pos (by simp)] at this
                rw [hc2]
                refine ⟨?_, ?_, ?_, ?_⟩
                · rw [hzero]
                  simp
                · rw [B, hzero, hcnt1]
                  simp
                · intro hcon
                  exact absurd hcon h1
                · constructor
                  · intro _
                    exact Or.inr (by simp)
                  · intro _
                    exact D.mpr (Or.inl hmem2)
              · have hmemc2 : id ∈ (if symbol.consumption == "one_shot"
                    then setAdd consumed sym_id else consumed) ↔ id ∈ consumed := by
                  by_cases hcons : (symbol.consumption == "one_shot") = true
                  · rw [if_pos hcons, setAdd_mem]
                    constructor
                    · rintro (h | h)
                      · exact h
                      · exact absurd h.symm hkid
                    · exact Or.inl
                  · rw [if_neg hcons]
                refine ⟨?_, ?_, ?_, ?_⟩
                · rw [if_neg hkid]
                  simpa using A
                · rw [if_neg hkid]
                  have hcnt0 : countAttempts s2.audit_trail id =
                      countAttempts s.audit_trail id := by
                    have := hcnt id
                    rwa [hkey, if_neg (by simp [hkid]), Nat.add_zero] at this
                  rw [B, hcnt0]
                  simp
                · intro hcon
                  rw [if_neg hkid]
                  simpa using C (hmemc2.mpr hcon)
                · rw [if_neg hkid]
                  rw [D, hmemc2]
                  simp
        · have hred : sweepRound iso ((sym_id, symbol) :: rest) s ctx consumed =
              sweepRound iso rest s ctx consumed := by simp [sweepRound, h1, h2]
          rw [hred, keyCount_cons]
          obtain ⟨A, B, C, D⟩ := ih s ctx consumed htlid htlone
          exact ⟨A.trans (Nat.le_add_left _ _), B, C, D⟩

theorem sweepRound_registry_eq (iso : String → Option Int) :
    ∀ (l : List (String × LatentSymbol)) (s : EngineState) (ctx : Context)
      (consumed : List String),
      (sweepRound iso l s ctx consumed).2.1.symbol_registry = s.symbol_registry := by
  intro l
  induction l with
  | nil => intro s ctx consumed; rfl
  | cons p rest ih =>
      intro s ctx consumed
      obtain ⟨sym_id, symbol⟩ := p
      by_cases h1 : sym_id ∈ consumed
      · simpa [sweepRound, h1] using ih s ctx consumed
      · by_cases h2 : prefilter iso s.activated_symbols symbol ctx = true
        · rcases hb : bind iso s symbol ctx with ⟨ob, s2⟩
          have hr2 : s2.symbol_registry = s.symbol_registry := by
            have := bind_registry_eq iso s symbol ctx
            rwa [hb] at this
          cases ob with
          | some b =>
              have := ih s2 ctx
                (if symbol.consumption == "one_shot" then setAdd consumed sym_id else consumed)
              simp only [sweepRound, hb]
              simp [h1, h2]
              simpa using this.trans hr2
          | none =>
              have := ih s2 ctx consumed
              simp only [sweepRound, hb]
              simp [h1, h2]
              simpa using this.trans hr2
        · simpa [sweepRound, h1, h2] using ih s ctx consumed

theorem bindAllRegisteredAux_count (iso : String → Option Int) (applyMut : Bool) (id : String) :
    ∀ (n : Nat) (s : EngineState) (ctx : Context) (consumed : List String)
      (rounds : List (List BoundSymbol)) (ctxF : Context) (sF : EngineState) (cF : List String),
      (∀ p ∈ s.symbol_registry, p.2.id = p.1) →
      (∀ p ∈ s.symbol_registry, p.1 = id → p.2.consumption = "one_shot") →
      keyCount s.symbol_registry id ≤ 1 →
      bindAllRegisteredAux iso applyMut n s ctx consumed = .ok (rounds, ctxF, sF, cF) →
      countById rounds.flatten id ≤ (if id ∈ consumed then 0 else 1) ∧
      countAttempts sF.audit_trail id =
        countAttempts s.audit_trail id + countById rounds.flatten id := by
  intro n
  induction n with
  | zero =>
      intro s ctx consumed rounds ctxF sF cF _ _ _ hok
      simp only [bindAllRegisteredAux] at hok
      cases hok
      constructor
      · simp [countById]
      · simp [countById]
  | succ n ih =>
      intro s ctx consumed rounds ctxF sF cF hid hone hkc hok
      simp only [bindAllRegisteredAux] at hok
      rcases hr : sweepRound iso s.symbol_registry s ctx consumed with ⟨bs, s', consumed'⟩
      simp only [hr] at hok
      obtain ⟨A0, B0, C0, D0⟩ := sweepRound_count iso id s.symbol_registry s ctx consumed hid hone
      rw [hr] at A0 B0 C0 D0
      have A : countById bs id ≤ keyCount s.symbol_registry id := A0
      have B : countAttempts s'.audit_trail id =
          countAttempts s.audit_trail id + countById bs id := B0
      have C : id ∈ consumed → countById bs id = 0 := C0
      have D : id ∈ consumed' ↔ (id ∈ consumed ∨ 1 ≤ countById bs id) := D0
      have hreg' : s'.symbol_registry = s.symbol_registry := by
        have := sweepRound_registry_eq iso s.symbol_registry s ctx consumed
        rwa [hr] at this
      by_cases hbs : bs.isEmpty
      · rw [if_pos hbs] at hok
        cases hok
        have hbs' : bs = [] := List.isEmpty_iff.mp hbs
        constructor
        · simp [countById]
        · have hB := B
          rw [hbs'] at hB
          simpa [countById] using hB
      · rw [if_neg hbs] at hok
        have hid' : ∀ p ∈ s'.symbol_registry, p.2.id = p.1 := by rw [hreg']; exact hid
        have hone' : ∀ p ∈ s'.symbol_registry, p.1 = id → p.2.consumption = "one_shot" := by
          rw [hreg']; exact hone
        have hkc' : keyCount s'.symbol_registry id ≤ 1 := by rw [hreg']; exact hkc
        have hflatA : ∀ (x : List BoundSymbol) (r : List (List BoundSymbol)),
            countById (x :: r).flatten id = countById x id + countById r.flatten id := by
          intro x r
          rw [List.flatten_cons, countById_append]
        cases applyMut with
        | true =>
            rw [if_pos rfl] at hok
            split at hok
            · cases hok
            · rename_i bs2 ctx2 s2 hA
              obtain ⟨hids, hregA, hcntA⟩ := applyMutations_ok_parts bs ctx s' bs2 ctx2 s2 hA
              split at hok
              · cases hok
              · rename_i rounds' ctxF' sF' cF' haux
                cases hok
                have hcb2 : countById bs2 id = countById bs id :=
                  countById_eq_of_map_eq _ _ _ hids
                have hid2 : ∀ p ∈ s2.symbol_registry, p.2.id = p.1 := by
                  rw [hregA]; exact hid'
                have hone2 : ∀ p ∈ s2.symbol_registry, p.1 = id →
                    p.2.consumption = "one_shot" := by
                  rw [hregA]; exact hone'
                have hkc2 : keyCount s2.symbol_registry id ≤ 1 := by rw [hregA]; exact hkc'
                obtain ⟨IH1, IH2⟩ :=
                  ih s2 ctx2 consumed' _ _ _ _ hid2 hone2 hkc2 haux
                have hcb : countById bs id ≤ 1 := A.trans hkc
                constructor
                · rw [hflatA, hcb2]
                  by_cases hmem : id ∈ consumed
                  · have hc0 : countById bs id = 0 := C hmem
                    have hmem' : id ∈ consumed' := D.mpr (Or.inl hmem)
                    rw [if_pos hmem]
                    rw [if_pos hmem'] at IH1
                    omega
                  · rw [if_neg hmem]
                    by_cases hcb0 : countById bs id = 0
                    · have hmem' : id ∉ consumed' := by
                        intro hcon
                        rcases D.mp hcon with hcc | hcc
                        · exact hmem hcc
                        · omega
                      rw [if_neg hmem'] at IH1
                      omega
                    · have h1le : 1 ≤ countById bs id := by omega
                      have hmem' : id ∈ consumed' := D.mpr (Or.inr h1le)
                      rw [if_pos hmem'] at IH1
                      omega
                · rw [hflatA, hcb2, IH2, hcntA id, B]
                  omega
        | false =>
            rw [if_neg (by simp)] at hok
            split at hok
            · cases hok
            · rename_i rounds' ctxF' sF' cF' haux
              cases hok
              obtain ⟨IH1, IH2⟩ :=
                ih s' ctx consumed' _ _ _ _ hid' hone' hkc' haux
              have hcb : countById bs id ≤ 1 := A.trans hkc
              constructor
              · rw [hflatA]
                by_cases hmem : id ∈ consumed
                · have hc0 : countById bs id = 0 := C hmem
                  have hmem' : id ∈ consumed' := D.mpr (Or.inl hmem)
                  rw [if_pos hmem]
                  rw [if_pos hmem'] at IH1
                  omega
                · rw [if_neg hmem]
                  by_cases hcb0 : countById bs id = 0
                  · have hmem' : id ∉ consumed' := by
                      intro hcon
                      rcases D.mp hcon with hcc | hcc
                      · exact hmem hcc
                      · omega
                    rw [if_neg hmem'] at IH1
                    omega
                  · have h1le : 1 ≤ countById bs id := by omega
                    have hmem' : id ∈ consumed' := D.mpr (Or.inr h1le)
                    rw [if_pos hmem'] at IH1
                    omega
              · rw [hflatA, IH2, B]
                omega

theorem engineWF_parts (s : EngineState) (h : engineWF s = true) :
    (dictKeys s.symbol_registry).Nodup ∧ (∀ p ∈ s.symbol_registry, p.2.id = p.1) ∧
    (∀ p ∈ s.symbol_registry, payloadWF p.2.payload = true) := by
  unfold engineWF at h
  simp only [Bool.and_eq_true, decide_eq_true_eq, List.all_eq_true] at h
  obtain ⟨⟨h1, h2⟩, h3⟩ := h
  refine ⟨h1, ?_, h3⟩
  intro p hp
  have := h2 p hp
  simpa using this

/-- C5: for every context, round cap and well-formed set of registered
units, the cascade sweep terminates and returns: the per-round bound lists
concatenate (round-major) into the returned list, each executed round bound
at least one new unit and lists its units in registry-insertion order (a
sublist of the registry keys), at most the cap's number of rounds run, and
when the sweep stopped before exhausting the cap, running one more round at
the final state binds nothing and changes nothing (the fixed point), so the
remaining round budget is genuinely unused. -/
theorem C5_sweep_termination (iso : String → Option Int) (s : EngineState) (ctx : Context)
    (n : Nat) (applyMut : Bool) (hwf : engineWF s = true) :
    ∃ rounds ctxF sF cF,
      bindAllRegisteredAux iso applyMut n s ctx [] = .ok (rounds, ctxF, sF, cF) ∧
      bind_all_registered iso s ctx n applyMut = .ok (rounds.flatten, ctxF, sF) ∧
      rounds.length ≤ n ∧
      (∀ rl ∈ rounds, rl ≠ []) ∧
      (∀ rl ∈ rounds, List.Sublist (rl.map (fun b => b.symbol_id))
        (dictKeys s.symbol_registry)) ∧
      (rounds.length < n → sweepRound iso sF.symbol_registry sF ctxF cF = ([], sF, cF)) := by
  obtain ⟨_, hid, hpf⟩ := engineWF_parts s hwf
  obtain ⟨rounds, ctxF, sF, cF, hok, hlen, hne, hsubs, _, hfix⟩ :=
    bindAllRegisteredAux_spec iso applyMut n s ctx [] hid hpf
  refine ⟨rounds, ctxF, sF, cF, hok, ?_, hlen, hne, hsubs, hfix⟩
  unfold bind_all_registered
  rw [hok]

/-- Witness for C5 at the two-unit P/Q cascade. -/
theorem C5_sweep_termination_witness :
    ∃ rounds ctxF sF cF,
      bindAllRegisteredAux isoNone true 10 enginePQ ctxPQ [] = .ok (rounds, ctxF, sF, cF) ∧
      bind_all_registered isoNone enginePQ ctxPQ 10 true = .ok (rounds.flatten, ctxF, sF) ∧
      rounds.length ≤ 10 ∧
      (∀ rl ∈ rounds, rl ≠ []) ∧
      (∀ rl ∈ rounds, List.Sublist (rl.map (fun b => b.symbol_id))
        (dictKeys enginePQ.symbol_registry)) ∧
      (rounds.length < 10 → sweepRound isoNone sF.symbol_registry sF ctxF cF = ([], sF, cF)) :=
  C5_sweep_termination isoNone enginePQ ctxPQ 10 true (by decide)

/-! ## C6: one-shot consumption is per call -/

/-- A reusable unit with an always-true gate. -/
def symReuse : LatentSymbol := ⟨"R", "STORY:r", ⟨none, none, none, none⟩, [], [], [], "reusable"⟩

/-- Engine with only `symReuse` registered. -/
def engineR : EngineState :=
  ⟨[⟨"R", .created, .dormant, "Registered"⟩], [("R", symReuse)], [], [("R", [])], []⟩

/-- The bound result of `symReuse` against `ctxAlice`. -/
def boundR : BoundSymbol := ⟨"R", "STORY:r", [], .vInt 1, ctxAlice, none⟩

/-- Engine after the reusable unit bound twice (two rounds). -/
def engineR2 : EngineState :=
  ⟨[⟨"R", .created, .dormant, "Registered"⟩,
    ⟨"R", .dormant, .activated, "Binding success"⟩,
    ⟨"R", .dormant, .activated, "Binding success"⟩],
   [("R", symReuse)], ["R"], [("R", [])],
   [⟨"R", ctxAlice, true, some "R", [], none⟩, ⟨"R", ctxAlice, true, some "R", [], none⟩]⟩

/-- Engine with only the one-shot `symFree` registered. -/
def engineF : EngineState :=
  ⟨[⟨"f1", .created, .dormant, "Registered"⟩], [("f1", symFree)], [], [("f1", [])], []⟩

/-- Engine after the first sweep call bound `symFree` once. -/
def engineF1 : EngineState :=
  ⟨[⟨"f1", .created, .dormant, "Registered"⟩,
    ⟨"f1", .dormant, .activated, "Binding success"⟩],
   [("f1", symFree)], ["f1"], [("f1", [])],
   [⟨"f1", ctxAlice, true, some "f1", [], none⟩]⟩

/-- Engine after the second sweep call bound `symFree` again. -/
def engineF2 : EngineState :=
  ⟨[⟨"f1", .created, .dormant, "Registered"⟩,
    ⟨"f1", .dormant, .activated, "Binding success"⟩,
    ⟨"f1", .dormant, .activated, "Binding success"⟩],
   [("f1", symFree)], ["f1"], [("f1", [])],
   [⟨"f1", ctxAlice, true, some "f1", [], none⟩, ⟨"f1", ctxAlice, true, some "f1", [], none⟩]⟩

/-- C6: within one sweep call a one-shot unit binds (and is attempted) at
most once — its id joins the per-call consumed set after binding and later
rounds skip it — while a reusable unit may bind again in later rounds (the
registered reusable unit binds twice in a two-round call); across calls the
consumed set is reset while the satisfied set persists, so the one-shot
unit binds once in a first call and once again in a second call — at most
once per call, not at most once globally. -/
theorem C6_one_shot_per_call (iso : String → Option Int) (s : EngineState) (ctx : Context)
    (n : Nat) (applyMut : Bool) (id : String) (sym : LatentSymbol)
    (res : List BoundSymbol) (ctxF : Context) (sF : EngineState)
    (hwf : engineWF s = true)
    (hlook : dictGet? s.symbol_registry id = some sym)
    (hcons : sym.consumption = "one_shot")
    (hok : bind_all_registered iso s ctx n applyMut = .ok (res, ctxF, sF)) :
    (countById res id ≤ 1 ∧
     countAttempts sF.audit_trail id ≤ countAttempts s.audit_trail id + 1) ∧
    (bind_all_registered isoNone engineR ctxAlice 2 true =
        .ok ([boundR, boundR], ctxAlice, engineR2) ∧
     countById [boundR, boundR] "R" = 2) ∧
    (bind_all_registered isoNone engineF ctxAlice 10 true =
        .ok ([boundFree], ctxAlice, engineF1) ∧
     bind_all_registered isoNone engineF1 ctxAlice 10 true =
        .ok ([boundFree], ctxAlice, engineF2) ∧
     countById [boundFree] "f1" = 1) := by
  refine ⟨?_, by decide, by decide⟩
  obtain ⟨hnd, hid, _⟩ := engineWF_parts s hwf
  have hone : ∀ p ∈ s.symbol_registry, p.1 = id → p.2.consumption = "one_shot" := by
    intro p hp hpid
    have hmem : (id, p.2) ∈ s.symbol_registry := by
      rw [← hpid]
      exact hp
    have := dictGet?_of_mem_nodup s.symbol_registry hnd id p.2 hmem
    rw [hlook] at this
    injection this with heq
    rw [← heq]
    exact hcons
  have hkc : keyCount s.symbol_registry id ≤ 1 := keyCount_le_one_of_nodup _ hnd id
  unfold bind_all_registered at hok
  rcases haux : bindAllRegisteredAux iso applyMut n s ctx [] with e | out
  · rw [haux] at hok
    cases hok
  · rw [haux] at hok
    obtain ⟨rounds, ctx2, s2, c2⟩ := out
    cases hok
    obtain ⟨h1, h2⟩ := bindAllRegisteredAux_count iso applyMut id n s ctx [] rounds _ _ c2
      hid hone hkc (by assumption)
    constructor
    · simpa using h1
    · rw [h2]
      have : countById rounds.flatten id ≤ 1 := by simpa using h1
      omega

/-- Witness for C6 at the one-shot engine's first call. -/
theorem C6_one_shot_per_call_witness :
    (countById [boundFree] "f1" ≤ 1 ∧
     countAttempts engineF1.audit_trail "f1" ≤ countAttempts engineF.audit_trail "f1" + 1) :=
  (C6_one_shot_per_call isoNone engineF ctxAlice 10 true "f1" symFree [boundFree] ctxAlice
    engineF1 (by decide) (by decide) rfl (by decide)).1

end Bindlang
